import Mathlib

/-!
IPMI FRU EEPROM decoder (`dfd_frueeprom.c`)

A shallow embedding of the FRU decoder of the Micas platform modules and the
properties proved about it.

Conventions of the embedding.

* A byte (`uint8_t`, `unsigned char`) is a `Fin 256`; arithmetic on bytes is done on
  their values in `Nat` or `Int`, with the 8-bit wrap written out.
* A C buffer `(pointer, length)` is a `List Byte` whose length is the length the C
  code passes along with the pointer. Every read of the buffer is written with `[i]?`;
  a read at an index that is not below the length is a read outside the object, and
  the function that performs it has the result `none`.
* Return codes are kept symbolic (`Ret`): the numeric values of the `DFD_RV_*` macros
  are not defined in this source file, only their sign is used (`rv < 0`).
* Everything the source file takes from `dfd_frueeprom.h` without defining it, and
  the signedness of plain `char`, is collected in `Config`.
-/

namespace Fru

/-- One octet. -/
abbrev Byte := Fin 256

/-- Sum of the values of a byte sequence, as a natural number. -/
def bsum (l : List Byte) : Nat := (l.map Fin.val).sum

/-- Return codes of the functions of the file. `ok` is `0` (`DFD_RV_OK`); every other
constructor is a negative value. `io_err` is the negative value returned by
`dfd_ko_i2c_read`, forwarded unchanged. -/
inductive Ret where
  | ok
  | minus_one
  | type_err
  | invalid_value
  | dev_fail
  | no_memory
  | io_err
  deriving DecidableEq, Repr

/-- Index of every named member of `ipmi_product_info_t` in the array of field
pointers that follows `language_code`, and the number of those pointers
(`ipmi_fru_field_len` of `ipmi_fru_product_info_area`). -/
structure product_layout where
  field_len : Nat
  product_manufacturer_name : Nat
  product_name : Nat
  product_part_model_number : Nat
  product_version : Nat
  product_serial_number : Nat
  product_asset_tag : Nat
  product_type_fields : Nat
  manufacturer_lt : product_manufacturer_name < field_len
  name_lt : product_name < field_len
  part_lt : product_part_model_number < field_len
  version_lt : product_version < field_len
  serial_lt : product_serial_number < field_len
  asset_lt : product_asset_tag < field_len
  type_lt : product_type_fields < field_len

/-- Index of every named member of `ipmi_board_info_t` in the array of field pointers
that follows `language_code` and `mfg_time`, and the number of those pointers. -/
structure board_layout where
  field_len : Nat
  board_manufacturer : Nat
  board_product_name : Nat
  board_serial_number : Nat
  board_part_number : Nat
  board_custom_fields : Nat
  manufacturer_lt : board_manufacturer < field_len
  name_lt : board_product_name < field_len
  serial_lt : board_serial_number < field_len
  part_lt : board_part_number < field_len
  custom_lt : board_custom_fields < field_len

/-- Build-time facts the source file uses and does not define: macros and structure
layouts of `dfd_frueeprom.h`, and whether plain `char` is signed. They are parameters
of the embedding; every theorem holds for each choice of them. -/
structure Config where
  /-- Whether plain `char`, the type of the checksum accumulator, is signed. -/
  char_signed : Bool
  /-- The macro of that name: the size of the array `type_length_field`. -/
  IPMI_FRU_AREA_TYPE_LENGTH_FIELD_MAX : Nat
  /-- Modelled from the spec: the field buffer is sized to at least 63 bytes, the
  largest length a type/length byte can declare. -/
  field_max_ge : 63 ≤ IPMI_FRU_AREA_TYPE_LENGTH_FIELD_MAX
  /-- The macro of that name: the minimum field count of the product area. -/
  IPMI_FRU_PRODUCT_AREA_MIN_LEN : Nat
  /-- The macro of that name: the minimum field count of the board area. -/
  IPMI_FRU_BOARD_AREA_MIN_LEN : Nat
  /-- The layout of `ipmi_product_info_t`. -/
  product : product_layout
  /-- The layout of `ipmi_board_info_t`. -/
  board : board_layout

/-- Modelled from the spec: `IPMI_FRU_HDR_BYTE_ZERO`, the required format version in
byte 0 of the common header and of every area ("currently 1"). -/
def IPMI_FRU_HDR_BYTE_ZERO : Byte := 1

/-- Modelled from the spec: `IPMI_FRU_SENTINEL_VALUE`, the end-of-fields byte `0xC1`. -/
def IPMI_FRU_SENTINEL_VALUE : Byte := 0xC1

/-- Modelled from the spec: `IPMI_FRU_TYPE_LENGTH_NUMBER_OF_DATA_BYTES_MASK`, the low
six bits of a type/length byte. -/
def IPMI_FRU_TYPE_LENGTH_NUMBER_OF_DATA_BYTES_MASK : Nat := 0x3F

/-- Modelled from the spec: `IPMI_FRU_TYPE_LENGTH_TYPE_CODE_MASK`, the top two bits of
a type/length byte. -/
def IPMI_FRU_TYPE_LENGTH_TYPE_CODE_MASK : Nat := 0xC0

/-- Modelled from the spec: `IPMI_FRU_TYPE_LENGTH_TYPE_CODE_SHIFT`, the position of
the type code (bits 7-6). -/
def IPMI_FRU_TYPE_LENGTH_TYPE_CODE_SHIFT : Nat := 6

/-- Modelled from the spec: `IPMI_FRU_BOARD_INFO_MFG_TIME_LENGTH`, the fixed 3-byte
manufacture time of the board area. -/
def IPMI_FRU_BOARD_INFO_MFG_TIME_LENGTH : Nat := 3

/-- Modelled from the spec: `IPMI_EIGHT_BYTES`, the unit of the offsets and lengths
stored in the FRU (multiples of 8 bytes). -/
def IPMI_EIGHT_BYTES : Nat := 8

/-- Modelled from the spec: `sizeof(fru_common_header_t)`, the fixed 8-byte header. -/
def sizeof_fru_common_header_t : Nat := 8

/-! ## Checksum -/

/-- The statement `crc += *data++` on the accumulator `char crc`: the sum is formed in
`int` and converted back to `char`, which keeps it modulo 256 in `[-128, 127]` when
`char` is signed and in `[0, 255]` when it is unsigned. -/
def char_add (char_signed : Bool) (crc : Int) (b : Byte) : Int :=
  if char_signed then (crc + (b.val : Int) + 128) % 256 - 128
  else (crc + (b.val : Int)) % 256

/-- `ipmi_calculate_crc(data, len)`; `data` holds the `len` bytes summed. The result
is `-crc` converted to `unsigned char`. -/
def ipmi_calculate_crc (K : Config) (data : List Byte) : Byte :=
  let crc := data.foldl (char_add K.char_signed) 0
  ⟨((-crc) % 256).toNat, by omega⟩

/-- `ipmi_verify_fru_data(data, len)` with `len = data.length`. Both failures return
`-DFD_RV_TYPE_ERR`. With `len = 0` the read of `data[0]` is outside the buffer. -/
def ipmi_verify_fru_data (K : Config) (data : List Byte) : Option Ret :=
  match data[0]? with
  | none => none
  | some b0 =>
    if b0 ≠ IPMI_FRU_HDR_BYTE_ZERO then some Ret.type_err
    else
      let checksum := ipmi_calculate_crc K (data.take (data.length - 1))
      match data[data.length - 1]? with
      | none => none
      | some last =>
        if checksum ≠ last then some Ret.type_err else some Ret.ok

/-! ## Type/length fields -/

/-- The structure `ipmi_fru_field_t`: the byte array `type_length_field` of
`IPMI_FRU_AREA_TYPE_LENGTH_FIELD_MAX` bytes and the number of bytes in use. -/
structure ipmi_fru_field_t where
  type_length_field : List Byte
  type_length_field_length : Nat
  deriving DecidableEq, Repr

/-- `mem_clear(field, sizeof(ipmi_fru_field_t))`: every byte of the structure zero. -/
def mem_clear_field (K : Config) : ipmi_fru_field_t :=
  { type_length_field := List.replicate K.IPMI_FRU_AREA_TYPE_LENGTH_FIELD_MAX 0
    type_length_field_length := 0 }

/-- `memcpy(dst, src, n)`: the first `n` bytes of `dst` become the first `n` bytes of
`src`, the other bytes of `dst` stay. -/
def memcpy (dst src : List Byte) (n : Nat) : List Byte :=
  src.take n ++ dst.drop n

/-- `ipmi_parse_type_length(areabuf, areabuflen, current_area_offset,
&number_of_data_bytes, field)` with `areabuflen = areabuf.length`. `field` is `none`
for a NULL pointer and `some f` for a pointer to a field holding `f`. The result is
the return value, the value stored in `number_of_data_bytes` and the field after the
call. The type code is only printed by the source and is not part of the result. -/
def ipmi_parse_type_length (K : Config) (areabuf : List Byte) (current_area_offset : Nat)
    (field : Option ipmi_fru_field_t) : Option (Ret × Nat × Option ipmi_fru_field_t) :=
  match areabuf[current_area_offset]? with
  | none => none
  | some type_length =>
    let number_of_data_bytes := type_length.val &&& IPMI_FRU_TYPE_LENGTH_NUMBER_OF_DATA_BYTES_MASK
    if current_area_offset + 1 + number_of_data_bytes > areabuf.length then
      some (Ret.minus_one, number_of_data_bytes, field)
    else
      match field with
      | none => some (Ret.ok, number_of_data_bytes, none)
      | some _ =>
        some (Ret.ok, number_of_data_bytes, some
          { type_length_field :=
              memcpy (List.replicate K.IPMI_FRU_AREA_TYPE_LENGTH_FIELD_MAX 0)
                (areabuf.drop (current_area_offset + 1)) number_of_data_bytes
            type_length_field_length := number_of_data_bytes })

/-! ## Area decoders -/

/-- The record `ipmi_product_info_t` as the decoder walks it: the pointer
`language_code` and the array of field pointers behind it. The only field object of
the file is the caller's `vpd_info`, so a pointer is `true` when it points to
`vpd_info` and `false` when it is NULL. -/
structure ipmi_product_info_t where
  language_code : Bool
  fields : List Bool
  deriving DecidableEq, Repr

/-- The record `ipmi_board_info_t`: the pointers `language_code` and `mfg_time` and
the array of field pointers behind them, as for `ipmi_product_info_t`. -/
structure ipmi_board_info_t where
  language_code : Bool
  mfg_time : Bool
  fields : List Bool
  deriving DecidableEq, Repr

/-- The `for` loop shared, statement for statement, by `ipmi_fru_product_info_area`
and `ipmi_fru_board_info_area`; `min_len` is the `IPMI_FRU_*_AREA_MIN_LEN` of the
area. The list is the part of the pointer array from `ipmi_fru_field_point` on, `i`
the loop counter, `area_offset` the cursor and `field` the contents of `vpd_info`.
The result is `rv` and `vpd_info` when the loop is left. The sentinel comparison reads
`areabufptr[area_offset]` before anything else is tested. -/
def field_loop (K : Config) (areabuf : List Byte) (min_len : Nat) :
    List Bool → Nat → Nat → ipmi_fru_field_t → Option (Ret × ipmi_fru_field_t)
  | [], _, _, field => some (Ret.ok, field)
  | p :: ps, i, area_offset, field =>
    let field1 := if p then mem_clear_field K else field
    match areabuf[area_offset]? with
    | none => none
    | some b =>
      if (b = IPMI_FRU_SENTINEL_VALUE ∧ i ≥ min_len) ∨ area_offset = areabuf.length - 1 then
        some (Ret.ok, field1)
      else
        match ipmi_parse_type_length K areabuf area_offset (if p then some field1 else none) with
        | none => none
        | some (rv, number_of_data_bytes, field_after) =>
          let field2 := field_after.getD field1
          if rv ≠ Ret.ok then some (rv, field2)
          else field_loop K areabuf min_len ps (i + 1) (area_offset + 1 + number_of_data_bytes) field2

/-- `ipmi_fru_product_info_area(areabuf, areabuflen, ipmi_product_info)` with
`areabuflen = areabuf.length`; `vpd` is the contents of `vpd_info` at the call. The
result is the return value, `vpd_info` after the call and the byte stored through
`language_code` when that pointer is set. -/
def ipmi_fru_product_info_area (K : Config) (areabuf : List Byte)
    (ipmi_product_info : ipmi_product_info_t) (vpd : ipmi_fru_field_t) :
    Option (Ret × ipmi_fru_field_t × Option Byte) :=
  if areabuf.length = 0 then some (Ret.invalid_value, vpd, none)
  else
    match ipmi_verify_fru_data K areabuf with
    | none => none
    | some rv =>
      if rv ≠ Ret.ok then some (rv, vpd, none)
      else
        let area_offset := 2
        match (if ipmi_product_info.language_code then areabuf[area_offset]?.map some
               else some none) with
        | none => none
        | some language_code =>
          match field_loop K areabuf K.IPMI_FRU_PRODUCT_AREA_MIN_LEN ipmi_product_info.fields
              0 (area_offset + 1) vpd with
          | none => none
          | some (rv, vpd_after) => some (rv, vpd_after, language_code)

/-- `ipmi_fru_board_info_area(areabuf, areabuflen, ipmi_board_info)`. The result is
the return value, `vpd_info` after the call, the byte stored through `language_code`
and the bytes stored through `mfg_time` when those pointers are set. -/
def ipmi_fru_board_info_area (K : Config) (areabuf : List Byte)
    (ipmi_board_info : ipmi_board_info_t) (vpd : ipmi_fru_field_t) :
    Option (Ret × ipmi_fru_field_t × Option Byte × Option (List Byte)) :=
  if areabuf.length = 0 then some (Ret.invalid_value, vpd, none, none)
  else
    match ipmi_verify_fru_data K areabuf with
    | none => none
    | some rv =>
      if rv ≠ Ret.ok then some (rv, vpd, none, none)
      else
        let area_offset := 2
        match (if ipmi_board_info.language_code then areabuf[area_offset]?.map some
               else some none) with
        | none => none
        | some language_code =>
          let area_offset := area_offset + 1
          match (if ipmi_board_info.mfg_time then
                   (if area_offset + IPMI_FRU_BOARD_INFO_MFG_TIME_LENGTH ≤ areabuf.length then
                      some (some ((areabuf.drop area_offset).take IPMI_FRU_BOARD_INFO_MFG_TIME_LENGTH))
                    else none)
                 else some none) with
          | none => none
          | some mfg_time =>
            let area_offset := area_offset + IPMI_FRU_BOARD_INFO_MFG_TIME_LENGTH
            match field_loop K areabuf K.IPMI_FRU_BOARD_AREA_MIN_LEN ipmi_board_info.fields
                0 area_offset vpd with
            | none => none
            | some (rv, vpd_after) => some (rv, vpd_after, language_code, mfg_time)

/-! ## Field selection -/

/-- The values of `type` the two `switch` statements distinguish: one constructor for
each `DFD_DEV_INFO_TYPE_*` case label of the file, and `OTHER` for every other
integer. -/
inductive dfd_dev_info_type where
  | SN
  | NAME
  | DEV_TYPE
  | HW_INFO
  | VENDOR
  | PART_NUMBER
  | ASSET_TAG
  | OTHER
  deriving DecidableEq, Repr

/-- The record after `mem_clear` and one assignment `member = vpd_info`, the member
being the field pointer number `k`. -/
def wire (field_len k : Nat) : List Bool :=
  (List.replicate field_len false).set k true

/-- `dfd_set_fru_product_info(ipmi_product_info, vpd_info, type)`: the return value
and the record after the call. -/
def dfd_set_fru_product_info (K : Config) (type : dfd_dev_info_type) :
    Ret × ipmi_product_info_t :=
  let n := K.product.field_len
  match type with
  | .SN => (Ret.ok, ⟨false, wire n K.product.product_serial_number⟩)
  | .NAME => (Ret.ok, ⟨false, wire n K.product.product_name⟩)
  | .DEV_TYPE => (Ret.ok, ⟨false, wire n K.product.product_type_fields⟩)
  | .HW_INFO => (Ret.ok, ⟨false, wire n K.product.product_version⟩)
  | .VENDOR => (Ret.ok, ⟨false, wire n K.product.product_manufacturer_name⟩)
  | .PART_NUMBER => (Ret.ok, ⟨false, wire n K.product.product_part_model_number⟩)
  | .ASSET_TAG => (Ret.ok, ⟨false, wire n K.product.product_asset_tag⟩)
  | _ => (Ret.minus_one, ⟨false, List.replicate n false⟩)

/-- `dfd_set_fru_board_info(ipmi_board_info, vpd_info, type)`: the return value and
the record after the call. -/
def dfd_set_fru_board_info (K : Config) (type : dfd_dev_info_type) :
    Ret × ipmi_board_info_t :=
  let n := K.board.field_len
  match type with
  | .SN => (Ret.ok, ⟨false, false, wire n K.board.board_serial_number⟩)
  | .NAME => (Ret.ok, ⟨false, false, wire n K.board.board_product_name⟩)
  | .HW_INFO => (Ret.ok, ⟨false, false, wire n K.board.board_custom_fields⟩)
  | .PART_NUMBER => (Ret.ok, ⟨false, false, wire n K.board.board_part_number⟩)
  | .VENDOR => (Ret.ok, ⟨false, false, wire n K.board.board_manufacturer⟩)
  | _ => (Ret.minus_one, ⟨false, false, List.replicate n false⟩)

/-! ## Common header and extraction -/

/-- What the file calls and does not define. `dfd_ko_i2c_read offset len` is the read
of `len` bytes at `offset` of the device selected by `(bus, dev_addr, sysfs_name)`,
which every call of an extraction passes on unchanged: `none` is a negative return
value, otherwise the buffer holds the `len` bytes read. `kmalloc size` tells whether
the allocation of `size` bytes succeeds. -/
structure Sys where
  dfd_ko_i2c_read : (offset : Nat) → (len : Nat) → Option { l : List Byte // l.length = len }
  kmalloc : Nat → Bool

/-- Modelled from the spec: the member `board_offset` of `fru_common_header_t`, byte 3
of the common header. -/
def board_offset (info : List Byte) : Nat := (info.getD 3 0).val

/-- Modelled from the spec: the member `product_offset` of `fru_common_header_t`,
byte 4 of the common header. -/
def product_offset (info : List Byte) : Nat := (info.getD 4 0).val

/-- `ipmi_validate_common_hdr(fru_data, data_len)` with `data_len = fru_data.length`. -/
def ipmi_validate_common_hdr (K : Config) (fru_data : List Byte) : Option Ret :=
  if fru_data.length ≥ sizeof_fru_common_header_t then
    let common_hdr := fru_data.take sizeof_fru_common_header_t
    match ipmi_verify_fru_data K common_hdr with
    | none => none
    | some rc => if rc ≠ Ret.ok then some rc else some Ret.ok
  else some Ret.minus_one

/-- `dfd_get_frue2prom_info(bus, dev_addr, info, sysfs_name)`: the return value and
the bytes of `info`. When the read fails `info` is not written and the callers do not
use it; the empty list stands for it. -/
def dfd_get_frue2prom_info (K : Config) (sys : Sys) : Option (Ret × List Byte) :=
  match sys.dfd_ko_i2c_read 0 sizeof_fru_common_header_t with
  | none => some (Ret.io_err, [])
  | some info =>
    match ipmi_validate_common_hdr K info.val with
    | none => none
    | some rc => if rc ≠ Ret.ok then some (Ret.type_err, info.val) else some (Ret.ok, info.val)

/-- `dfd_get_fru_data(bus, dev_addr, type, buf, buf_len, sysfs_name)`: `buf` is the
caller's buffer and `buf_len` its length. The result is the return value and the
buffer after the call. -/
def dfd_get_fru_data (K : Config) (sys : Sys) (type : dfd_dev_info_type) (buf : List Byte) :
    Option (Ret × List Byte) :=
  let buf_len := buf.length
  if buf_len = 0 then some (Ret.invalid_value, buf)
  else
    match dfd_get_frue2prom_info K sys with
    | none => none
    | some (ret, info) =>
      if ret ≠ Ret.ok then some (ret, buf)
      else
        let product_offset := product_offset info * IPMI_EIGHT_BYTES
        match sys.dfd_ko_i2c_read (product_offset + 1) 1 with
        | none => some (Ret.dev_fail, buf)
        | some fru_len =>
          let fru_len_tmp := (fru_len.val.headD 0).val * IPMI_EIGHT_BYTES
          if sys.kmalloc fru_len_tmp = false then some (Ret.no_memory, buf)
          else
            match sys.dfd_ko_i2c_read product_offset fru_len_tmp with
            | none => some (Ret.io_err, buf)
            | some fru_data =>
              let vpd_info := mem_clear_field K
              let sel := dfd_set_fru_product_info K type
              if sel.1 ≠ Ret.ok then some (sel.1, buf)
              else
                match ipmi_fru_product_info_area K fru_data.val sel.2 vpd_info with
                | none => none
                | some (ret, vpd_info, _) =>
                  if ret ≠ Ret.ok then some (ret, buf)
                  else
                    let buf_len :=
                      if buf_len < vpd_info.type_length_field_length then buf_len
                      else vpd_info.type_length_field_length
                    some (Ret.ok, memcpy buf vpd_info.type_length_field buf_len)

/-- `dfd_get_fru_board_data(bus, dev_addr, type, buf, buf_len, sysfs_name)`, as
`dfd_get_fru_data` with the board offset, selector and decoder. -/
def dfd_get_fru_board_data (K : Config) (sys : Sys) (type : dfd_dev_info_type)
    (buf : List Byte) : Option (Ret × List Byte) :=
  let buf_len := buf.length
  if buf_len = 0 then some (Ret.invalid_value, buf)
  else
    match dfd_get_frue2prom_info K sys with
    | none => none
    | some (ret, info) =>
      if ret ≠ Ret.ok then some (ret, buf)
      else
        let board_offset := board_offset info * IPMI_EIGHT_BYTES
        match sys.dfd_ko_i2c_read (board_offset + 1) 1 with
        | none => some (Ret.dev_fail, buf)
        | some fru_len =>
          let fru_len_tmp := (fru_len.val.headD 0).val * IPMI_EIGHT_BYTES
          if sys.kmalloc fru_len_tmp = false then some (Ret.no_memory, buf)
          else
            match sys.dfd_ko_i2c_read board_offset fru_len_tmp with
            | none => some (Ret.io_err, buf)
            | some fru_data =>
              let vpd_info := mem_clear_field K
              let sel := dfd_set_fru_board_info K type
              if sel.1 ≠ Ret.ok then some (sel.1, buf)
              else
                match ipmi_fru_board_info_area K fru_data.val sel.2 vpd_info with
                | none => none
                | some (ret, vpd_info, _) =>
                  if ret ≠ Ret.ok then some (ret, buf)
                  else
                    let buf_len :=
                      if buf_len < vpd_info.type_length_field_length then buf_len
                      else vpd_info.type_length_field_length
                    some (Ret.ok, memcpy buf vpd_info.type_length_field buf_len)

/-! ## Vocabulary of the properties -/

/-- The number of data bytes the type/length byte at `c` declares, `area[c] & 0x3F`
(`0` when `c` is outside the area). -/
def data_length (area : List Byte) (c : Nat) : Nat :=
  match area[c]? with
  | none => 0
  | some b => b.val &&& 0x3F

/-- The cursor sequence of the field walk: `c_0` is the offset of the first field and
`c_(j+1) = c_j + 1 + (area[c_j] & 0x3F)`. -/
def cursor (area : List Byte) (c0 : Nat) : Nat → Nat
  | 0 => c0
  | j + 1 => cursor area c0 j + 1 + data_length area (cursor area c0 j)

/-- A termination condition of the walk holds at logical index `i` with the cursor at
`c`: the byte there is the sentinel and `i` has reached the minimum field count, or
only the checksum byte is left. -/
def terminates (area : List Byte) (min_len i c : Nat) : Prop :=
  (area[c]? = some (0xC1 : Byte) ∧ min_len ≤ i) ∨ c = area.length - 1

instance (area : List Byte) (min_len i c : Nat) : Decidable (terminates area min_len i c) := by
  unfold terminates; infer_instance

/-- The field a successful decode at cursor `c` produces: the `data_length` bytes that
follow the type/length byte, then zeros up to the capacity of the field buffer. -/
def field_at (K : Config) (area : List Byte) (c : Nat) : ipmi_fru_field_t :=
  { type_length_field :=
      (area.drop (c + 1)).take (data_length area c) ++
        List.replicate (K.IPMI_FRU_AREA_TYPE_LENGTH_FIELD_MAX - data_length area c) 0
    type_length_field_length := data_length area c }

/-- The walk from first-field offset `c0` decodes the slots `0 .. t-1`: at each of
them the cursor is inside the area, no termination condition holds and the field fits
into the area. -/
def walks (area : List Byte) (min_len c0 t : Nat) : Prop :=
  ∀ j, j < t →
    cursor area c0 j < area.length ∧ ¬ terminates area min_len j (cursor area c0 j) ∧
      cursor area c0 j + 1 + data_length area (cursor area c0 j) ≤ area.length

instance (area : List Byte) (min_len c0 t : Nat) : Decidable (walks area min_len c0 t) := by
  unfold walks; infer_instance

/-- The contents of `vpd_info` when the walk over a record with the single slot `k`
set arrives at slot `t`: the field of slot `k` once that slot is behind, the contents
at the call before. -/
def captured (K : Config) (area : List Byte) (c0 k t : Nat) (f0 : ipmi_fru_field_t) :
    ipmi_fru_field_t :=
  if k < t then field_at K area (cursor area c0 k) else f0

/-- The three reads of an extraction succeed and deliver `area`: the header read at
offset 0 validates, `off` selects the offset byte of the header, the length byte is
read at `8 * offset + 1`, the allocation succeeds and the area read delivers `area`. -/
def area_read (K : Config) (sys : Sys) (off : List Byte → Nat) (area : List Byte) : Prop :=
  ∃ (info : { l : List Byte // l.length = sizeof_fru_common_header_t })
    (fru_len : { l : List Byte // l.length = 1 })
    (fru_data : { l : List Byte // l.length = (fru_len.val.headD 0).val * IPMI_EIGHT_BYTES }),
    sys.dfd_ko_i2c_read 0 sizeof_fru_common_header_t = some info ∧
    ipmi_validate_common_hdr K info.val = some Ret.ok ∧
    sys.dfd_ko_i2c_read (off info.val * IPMI_EIGHT_BYTES + 1) 1 = some fru_len ∧
    sys.kmalloc ((fru_len.val.headD 0).val * IPMI_EIGHT_BYTES) = true ∧
    sys.dfd_ko_i2c_read (off info.val * IPMI_EIGHT_BYTES)
      ((fru_len.val.headD 0).val * IPMI_EIGHT_BYTES) = some fru_data ∧
    fru_data.val = area

/-- A common header with the board area at offset 8 and the product area at offset
24. -/
def example_header : List Byte := [0x01, 0x00, 0x00, 0x01, 0x03, 0x00, 0x00, 0xFB]

/-- A 24-byte product area: language code 0, manufacturer "Micas", product name
"Fan1", two empty fields, serial number "SN01", the sentinel, padding and checksum. -/
def example_product_area : List Byte :=
  [0x01, 0x03, 0x00, 0xC5, 0x4D, 0x69, 0x63, 0x61, 0x73, 0xC4, 0x46, 0x61, 0x6E, 0x31,
   0xC0, 0xC0, 0xC4, 0x53, 0x4E, 0x30, 0x31, 0xC1, 0x00, 0x39]

/-- A 16-byte board area: language code 0, manufacture time 0, manufacturer "Mi",
product name "F1", serial number "S1" and the checksum. -/
def example_board_area : List Byte :=
  [0x01, 0x02, 0x00, 0x00, 0x00, 0x00, 0xC2, 0x4D, 0x69, 0xC2, 0x46, 0x31, 0xC2, 0x53,
   0x31, 0x06]

/-- The EEPROM contents made of `example_header`, `example_board_area` at offset 8 and
`example_product_area` at offset 24. -/
def example_device : List Byte :=
  example_header ++ example_board_area ++ example_product_area

/-- An 8-byte product area that passes verification and whose first field (4 data
bytes at offset 3) ends with the last byte of the area. -/
def overrun_product_area : List Byte := [0x01, 0x01, 0x00, 0xC4, 0x00, 0x00, 0x00, 0x3A]

/-- An 8-byte board area that passes verification and whose first field (1 data byte
at offset 6) ends with the last byte of the area. -/
def overrun_board_area : List Byte := [0x01, 0x01, 0x00, 0x00, 0x00, 0x00, 0x01, 0xFD]

/-- The EEPROM contents made of a common header with board and product area at offset
8 and `overrun_product_area` there. -/
def overrun_device : List Byte :=
  [0x01, 0x00, 0x00, 0x01, 0x01, 0x00, 0x00, 0xFD] ++ overrun_product_area

/-- The last two statements of an extraction: `buf_len` becomes the smaller of the
buffer length and the field length, and that many bytes of `vpd_info` are copied to
`buf`. -/
def copy_out (buf : List Byte) (vpd_info : ipmi_fru_field_t) : List Byte :=
  memcpy buf vpd_info.type_length_field
    (if buf.length < vpd_info.type_length_field_length then buf.length
     else vpd_info.type_length_field_length)

/-- An 8-byte product area whose first field byte, at slot 0, is `0xC1`, followed by
the byte `0x41`, two empty fields and the checksum. -/
def sentinel_first_product_area : List Byte :=
  [0x01, 0x01, 0x00, 0xC1, 0x41, 0xC0, 0xC0, 0x7C]

/-- The length recorded in a field does not exceed its buffer. -/
def field_wf (f : ipmi_fru_field_t) : Prop :=
  f.type_length_field_length ≤ f.type_length_field.length

/-- The buffer with bit `bit` of the byte at position `p` inverted. -/
def flip_bit (data : List Byte) (p : Nat) (bit : Fin 8) : List Byte :=
  match data[p]? with
  | none => data
  | some b => data.set p ⟨(b.val ^^^ 2 ^ bit.val) % 256, Nat.mod_lt _ (by decide)⟩

/-- A device whose EEPROM holds the bytes `mem` (zero beyond them), on which every
read and every allocation succeeds. -/
def eeprom (mem : List Byte) : Sys where
  dfd_ko_i2c_read := fun offset len =>
    some ⟨(List.range len).map (fun i => mem.getD (offset + i) 0), by simp⟩
  kmalloc := fun _ => true

/-- One admissible choice of the build-time facts, used to evaluate the decoder on
concrete inputs: signed `char`, a 64-byte field buffer, the slot order of the IPMI
area layouts, and minimum field counts 5 (product) and 4 (board). -/
def example_config : Config where
  char_signed := true
  IPMI_FRU_AREA_TYPE_LENGTH_FIELD_MAX := 64
  field_max_ge := by decide
  IPMI_FRU_PRODUCT_AREA_MIN_LEN := 5
  IPMI_FRU_BOARD_AREA_MIN_LEN := 4
  product :=
    { field_len := 7
      product_manufacturer_name := 0
      product_name := 1
      product_part_model_number := 2
      product_version := 3
      product_serial_number := 4
      product_asset_tag := 5
      product_type_fields := 6
      manufacturer_lt := by decide
      name_lt := by decide
      part_lt := by decide
      version_lt := by decide
      serial_lt := by decide
      asset_lt := by decide
      type_lt := by decide }
  board :=
    { field_len := 5
      board_manufacturer := 0
      board_product_name := 1
      board_serial_number := 2
      board_part_number := 3
      board_custom_fields := 4
      manufacturer_lt := by decide
      name_lt := by decide
      serial_lt := by decide
      part_lt := by decide
      custom_lt := by decide }

/-! ## Return value, type code, call log and decoded cursors -/

/-- The integer a return code stands for when it is not negative: `Ret.ok` is `0`
(`DFD_RV_OK`, "returns: 0 success" in the comments of the extractions); every other
return code is a negative value and has none. -/
def Ret.nonneg_value : Ret → Option Nat
  | Ret.ok => some 0
  | _ => none

/-- The local `type_code` of `ipmi_parse_type_length`,
`(type_length & IPMI_FRU_TYPE_LENGTH_TYPE_CODE_MASK) >> IPMI_FRU_TYPE_LENGTH_TYPE_CODE_SHIFT`,
which the function prints and does not return. -/
def type_code (type_length : Byte) : Nat :=
  (type_length.val &&& IPMI_FRU_TYPE_LENGTH_TYPE_CODE_MASK) >>>
    IPMI_FRU_TYPE_LENGTH_TYPE_CODE_SHIFT

/-- `dfd_get_fru_data` with the calls of `dfd_ko_i2c_read` recorded: the second
component lists `(offset, len)` of every call in the order the calls are made. The
first call is the one inside `dfd_get_frue2prom_info`. -/
def dfd_get_fru_data_logged (K : Config) (sys : Sys) (type : dfd_dev_info_type)
    (buf : List Byte) : Option (Ret × List Byte) × List (Nat × Nat) :=
  let buf_len := buf.length
  if buf_len = 0 then (some (Ret.invalid_value, buf), [])
  else
    let log1 := [(0, sizeof_fru_common_header_t)]
    match dfd_get_frue2prom_info K sys with
    | none => (none, log1)
    | some (ret, info) =>
      if ret ≠ Ret.ok then (some (ret, buf), log1)
      else
        let product_offset := product_offset info * IPMI_EIGHT_BYTES
        let log2 := log1 ++ [(product_offset + 1, 1)]
        match sys.dfd_ko_i2c_read (product_offset + 1) 1 with
        | none => (some (Ret.dev_fail, buf), log2)
        | some fru_len =>
          let fru_len_tmp := (fru_len.val.headD 0).val * IPMI_EIGHT_BYTES
          if sys.kmalloc fru_len_tmp = false then (some (Ret.no_memory, buf), log2)
          else
            let log3 := log2 ++ [(product_offset, fru_len_tmp)]
            match sys.dfd_ko_i2c_read product_offset fru_len_tmp with
            | none => (some (Ret.io_err, buf), log3)
            | some fru_data =>
              let vpd_info := mem_clear_field K
              let sel := dfd_set_fru_product_info K type
              if sel.1 ≠ Ret.ok then (some (sel.1, buf), log3)
              else
                match ipmi_fru_product_info_area K fru_data.val sel.2 vpd_info with
                | none => (none, log3)
                | some (ret, vpd_info, _) =>
                  if ret ≠ Ret.ok then (some (ret, buf), log3)
                  else
                    let buf_len :=
                      if buf_len < vpd_info.type_length_field_length then buf_len
                      else vpd_info.type_length_field_length
                    (some (Ret.ok, memcpy buf vpd_info.type_length_field buf_len), log3)

/-- `dfd_get_fru_board_data` with the calls of `dfd_ko_i2c_read` recorded, as
`dfd_get_fru_data_logged`. -/
def dfd_get_fru_board_data_logged (K : Config) (sys : Sys) (type : dfd_dev_info_type)
    (buf : List Byte) : Option (Ret × List Byte) × List (Nat × Nat) :=
  let buf_len := buf.length
  if buf_len = 0 then (some (Ret.invalid_value, buf), [])
  else
    let log1 := [(0, sizeof_fru_common_header_t)]
    match dfd_get_frue2prom_info K sys with
    | none => (none, log1)
    | some (ret, info) =>
      if ret ≠ Ret.ok then (some (ret, buf), log1)
      else
        let board_offset := board_offset info * IPMI_EIGHT_BYTES
        let log2 := log1 ++ [(board_offset + 1, 1)]
        match sys.dfd_ko_i2c_read (board_offset + 1) 1 with
        | none => (some (Ret.dev_fail, buf), log2)
        | some fru_len =>
          let fru_len_tmp := (fru_len.val.headD 0).val * IPMI_EIGHT_BYTES
          if sys.kmalloc fru_len_tmp = false then (some (Ret.no_memory, buf), log2)
          else
            let log3 := log2 ++ [(board_offset, fru_len_tmp)]
            match sys.dfd_ko_i2c_read board_offset fru_len_tmp with
            | none => (some (Ret.io_err, buf), log3)
            | some fru_data =>
              let vpd_info := mem_clear_field K
              let sel := dfd_set_fru_board_info K type
              if sel.1 ≠ Ret.ok then (some (sel.1, buf), log3)
              else
                match ipmi_fru_board_info_area K fru_data.val sel.2 vpd_info with
                | none => (none, log3)
                | some (ret, vpd_info, _) =>
                  if ret ≠ Ret.ok then (some (ret, buf), log3)
                  else
                    let buf_len :=
                      if buf_len < vpd_info.type_length_field_length then buf_len
                      else vpd_info.type_length_field_length
                    (some (Ret.ok, memcpy buf vpd_info.type_length_field buf_len), log3)

/-- The cursor after each field the loop of the area decoders decodes with success,
in order: the loop of `field_loop` with the same termination test and the same call
of `ipmi_parse_type_length` (here with a NULL field, on which neither its return value
nor `number_of_data_bytes` depends), keeping the values `area_offset` takes after the
two `area_offset +=` statements. -/
def decoded_cursors (K : Config) (areabuf : List Byte) (min_len : Nat) :
    List Bool → Nat → Nat → List Nat
  | [], _, _ => []
  | _ :: ps, i, area_offset =>
    match areabuf[area_offset]? with
    | none => []
    | some b =>
      if (b = IPMI_FRU_SENTINEL_VALUE ∧ i ≥ min_len) ∨ area_offset = areabuf.length - 1 then []
      else
        match ipmi_parse_type_length K areabuf area_offset none with
        | some (Ret.ok, number_of_data_bytes, _) =>
          (area_offset + 1 + number_of_data_bytes) ::
            decoded_cursors K areabuf min_len ps (i + 1) (area_offset + 1 + number_of_data_bytes)
        | _ => []

/-- The device `eeprom mem` with an allocator that always fails. -/
def no_memory_device (mem : List Byte) : Sys where
  dfd_ko_i2c_read := (eeprom mem).dfd_ko_i2c_read
  kmalloc := fun _ => false

/-- An 8-byte product area that passes verification: slot 0 is a field of one data
byte (`0x41`) at offset 3, and the type/length byte `0xC5` of slot 1, at offset 5,
declares five data bytes where two bytes are left. -/
def truncated_product_area : List Byte :=
  [0x01, 0x01, 0x00, 0x01, 0x41, 0xC5, 0x00, 0xF7]

/-- The EEPROM contents made of a common header with board and product area at offset
8 and `truncated_product_area` there. -/
def truncated_device : List Byte :=
  [0x01, 0x00, 0x00, 0x01, 0x01, 0x00, 0x00, 0xFD] ++ truncated_product_area

/-- The EEPROM contents made of a common header with board and product area at offset
8 and, there, an area whose length byte (offset 9) is 0. -/
def empty_area_device : List Byte :=
  [0x01, 0x00, 0x00, 0x01, 0x01, 0x00, 0x00, 0xFD] ++ [0x01, 0x00, 0x00, 0x00]

theorem bsum_nil : bsum [] = 0 := rfl

theorem bsum_cons (b : Byte) (l : List Byte) : bsum (b :: l) = b.val + bsum l := by
  simp [bsum]

theorem bsum_append (l m : List Byte) : bsum (l ++ m) = bsum l + bsum m := by
  simp [bsum]

theorem char_add_emod (s : Bool) (crc : Int) (b : Byte) :
    char_add s crc b % 256 = (crc + (b.val : Int)) % 256 := by
  unfold char_add
  cases s <;> simp only [Bool.false_eq_true, if_true, if_false] <;> omega

theorem foldl_char_add_emod (s : Bool) (data : List Byte) (acc : Int) :
    data.foldl (char_add s) acc % 256 = (acc + (bsum data : Int)) % 256 := by
  induction data generalizing acc with
  | nil => simp [bsum_nil]
  | cons b t ih =>
    rw [List.foldl_cons, ih, bsum_cons]
    have h := char_add_emod s acc b
    push_cast
    omega

/-- The checksum in closed form, for either signedness of `char`. -/
theorem crc_val (K : Config) (data : List Byte) :
    (ipmi_calculate_crc K data).val = (256 - bsum data % 256) % 256 := by
  have h := foldl_char_add_emod K.char_signed data 0
  simp only [ipmi_calculate_crc]
  omega

/-- Verification of a non-empty buffer in closed form. -/
theorem verify_eq (K : Config) (data : List Byte) (h : data ≠ []) :
    ipmi_verify_fru_data K data =
      if data[0]? = some (1 : Byte) ∧ bsum data % 256 = 0 then some Ret.ok
      else some Ret.type_err := by
  rcases List.eq_nil_or_concat data with rfl | ⟨init, last, rfl⟩
  · exact absurd rfl h
  · rw [List.concat_eq_append] at h ⊢
    have hlen : (init ++ [last]).length - 1 = init.length := by simp
    have hcrc := crc_val K init
    have hb : bsum (init ++ [last]) = bsum init + last.val := by
      rw [bsum_append, bsum_cons, bsum_nil, Nat.add_zero]
    have hlast := last.isLt
    have key : (ipmi_calculate_crc K init = last) ↔ (bsum init + last.val) % 256 = 0 := by
      rw [Fin.ext_iff, hcrc]
      omega
    unfold ipmi_verify_fru_data
    rw [hlen, List.take_left, hb]
    have hget : (init ++ [last])[init.length]? = some last := by simp
    rw [hget]
    cases h0 : (init ++ [last])[0]? with
    | none => cases init <;> simp at h0
    | some b0 =>
      by_cases hb0 : b0 = 1
      · subst hb0
        by_cases hk : ipmi_calculate_crc K init = last
        · simp [IPMI_FRU_HDR_BYTE_ZERO, hk, key.mp hk]
        · have hk2 : ¬ (bsum init + last.val) % 256 = 0 := fun h2 => hk (key.mpr h2)
          simp [IPMI_FRU_HDR_BYTE_ZERO, hk, hk2]
      · simp [IPMI_FRU_HDR_BYTE_ZERO, hb0]

theorem bsum_set (l : List Byte) (p : Nat) (x : Byte) (hp : p < l.length) :
    bsum (l.set p x) + (l.get ⟨p, hp⟩).val = bsum l + x.val := by
  induction l generalizing p with
  | nil => simp at hp
  | cons a t ih =>
    cases p with
    | zero => simp [bsum_cons]; omega
    | succ q =>
      have hq : q < t.length := by simpa using hp
      have := ih q hq
      simp only [List.set_cons_succ, bsum_cons, List.get_eq_getElem, List.getElem_cons_succ] at *
      omega

set_option maxRecDepth 100000 in
theorem xor_bit_ne : ∀ (b : Byte) (bit : Fin 8), (b.val ^^^ 2 ^ bit.val) % 256 ≠ b.val := by
  decide

theorem flip_bit_length (data : List Byte) (p : Nat) (bit : Fin 8) :
    (flip_bit data p bit).length = data.length := by
  unfold flip_bit
  cases data[p]? <;> simp

theorem flip_bit_bsum (data : List Byte) (p : Nat) (bit : Fin 8) (hp : p < data.length)
    (h : bsum data % 256 = 0) : bsum (flip_bit data p bit) % 256 ≠ 0 := by
  have hget : data[p]? = some (data.get ⟨p, hp⟩) := by simp
  have hne := xor_bit_ne (data.get ⟨p, hp⟩) bit
  have hold := (data.get ⟨p, hp⟩).isLt
  have hnew : ((data.get ⟨p, hp⟩).val ^^^ 2 ^ bit.val) % 256 < 256 := Nat.mod_lt _ (by decide)
  have hs := bsum_set data p ⟨((data.get ⟨p, hp⟩).val ^^^ 2 ^ bit.val) % 256, hnew⟩ hp
  unfold flip_bit
  rw [hget]
  simp only at hs ⊢
  omega

/-- C3. `ipmi_calculate_crc` returns `(256 - (sum of the bytes mod 256)) mod 256` for
every byte sequence, the empty one included, so the sum of the bytes and the checksum
is `0` modulo 256; the value is the same whether `char` is signed or unsigned. -/
theorem C3_checksum_definition (K : Config) (b : List Byte) :
    (ipmi_calculate_crc K b).val = (256 - bsum b % 256) % 256 ∧
    (bsum b + (ipmi_calculate_crc K b).val) % 256 = 0 ∧
    (∀ K2 : Config, ipmi_calculate_crc K2 b = ipmi_calculate_crc K b) := by
  have h := crc_val K b
  refine ⟨h, by omega, fun K2 => ?_⟩
  rw [Fin.ext_iff, crc_val K2 b, h]

/-- C4. For a buffer of length at least 1, `ipmi_verify_fru_data` returns `0` exactly
when byte 0 is `1` and the bytes sum to `0` modulo 256, and returns
`-DFD_RV_TYPE_ERR` otherwise; in particular a buffer whose first byte is not `1` is
rejected although its last byte is the checksum of the bytes before it. -/
theorem C4_verify_characterisation (K : Config) (data : List Byte) (hlen : 1 ≤ data.length) :
    (ipmi_verify_fru_data K data = some Ret.ok ↔
      data[0]? = some (1 : Byte) ∧ bsum data % 256 = 0) ∧
    (ipmi_verify_fru_data K data ≠ some Ret.ok →
      ipmi_verify_fru_data K data = some Ret.type_err) ∧
    (data[0]? ≠ some (1 : Byte) →
      ipmi_verify_fru_data K (data ++ [ipmi_calculate_crc K data]) = some Ret.type_err) := by
  have hne : data ≠ [] := by
    intro h
    rw [h] at hlen
    simp at hlen
  have hv := verify_eq K data hne
  refine ⟨?_, ?_, ?_⟩
  · rw [hv]
    by_cases hc : data[0]? = some (1 : Byte) ∧ bsum data % 256 = 0
    · simp [hc]
    · simp only [hc, if_false, iff_false]
      intro h
      cases h
  · rw [hv]
    by_cases hc : data[0]? = some (1 : Byte) ∧ bsum data % 256 = 0
    · simp [hc]
    · simp [hc]
  · intro h0
    have hne2 : data ++ [ipmi_calculate_crc K data] ≠ [] := by simp
    rw [verify_eq K _ hne2]
    have h1 : (data ++ [ipmi_calculate_crc K data])[0]? = data[0]? := by
      rw [List.getElem?_append_left (by omega)]
    rw [h1]
    simp [h0]

theorem C4_verify_characterisation_witness :
    (ipmi_verify_fru_data example_config [1, 3, 0xFC] = some Ret.ok ↔
      ([1, 3, 0xFC] : List Byte)[0]? = some (1 : Byte) ∧ bsum [1, 3, 0xFC] % 256 = 0) ∧
    (ipmi_verify_fru_data example_config [1, 3, 0xFC] ≠ some Ret.ok →
      ipmi_verify_fru_data example_config [1, 3, 0xFC] = some Ret.type_err) ∧
    (([1, 3, 0xFC] : List Byte)[0]? ≠ some (1 : Byte) →
      ipmi_verify_fru_data example_config
        ([1, 3, 0xFC] ++ [ipmi_calculate_crc example_config [1, 3, 0xFC]]) =
        some Ret.type_err) :=
  C4_verify_characterisation example_config [1, 3, 0xFC] (by decide)

/-- C5, as stated, fails: the one-byte sequence `[2]` followed by its checksum `0xFE`
is rejected by `ipmi_verify_fru_data`, because byte 0 is not `1`. -/
theorem C5_roundtrip_counterexample :
    ¬ (∀ (K : Config) (b : List Byte), 1 ≤ b.length →
        ipmi_verify_fru_data K (b ++ [ipmi_calculate_crc K b]) = some Ret.ok) := by
  intro h
  have h2 := h example_config [2] (by decide)
  revert h2
  decide

/-- C5, amended. For every byte sequence of length at least 1 whose first byte is `1`,
`ipmi_verify_fru_data` accepts the sequence followed by its `ipmi_calculate_crc`. -/
theorem C5_roundtrip_amended (K : Config) (b : List Byte) (hlen : 1 ≤ b.length)
    (h0 : b[0]? = some (1 : Byte)) :
    ipmi_verify_fru_data K (b ++ [ipmi_calculate_crc K b]) = some Ret.ok := by
  have hne2 : b ++ [ipmi_calculate_crc K b] ≠ [] := by simp
  rw [verify_eq K _ hne2]
  have h1 : (b ++ [ipmi_calculate_crc K b])[0]? = b[0]? := by
    rw [List.getElem?_append_left (by omega)]
  have hs : bsum (b ++ [ipmi_calculate_crc K b]) % 256 = 0 := by
    rw [bsum_append, bsum_cons, bsum_nil, Nat.add_zero]
    have := crc_val K b
    omega
  rw [h1]
  simp [h0, hs]

theorem C5_roundtrip_amended_witness :
    ipmi_verify_fru_data example_config
      ([1, 3] ++ [ipmi_calculate_crc example_config [1, 3]]) = some Ret.ok :=
  C5_roundtrip_amended example_config [1, 3] (by decide) (by decide)

/-- C6. If `ipmi_verify_fru_data` accepts a buffer, it rejects the buffer obtained by
inverting any one bit of any one of its bytes; the return value is
`-DFD_RV_TYPE_ERR`, the only error value of the function. -/
theorem C6_mutation_sensitivity (K : Config) (data : List Byte) (p : Nat) (bit : Fin 8)
    (hok : ipmi_verify_fru_data K data = some Ret.ok) (hp : p < data.length) :
    ipmi_verify_fru_data K (flip_bit data p bit) = some Ret.type_err := by
  have hne : data ≠ [] := by
    intro h
    rw [h] at hp
    simp at hp
  have hne2 : flip_bit data p bit ≠ [] := by
    intro h
    have := flip_bit_length data p bit
    rw [h] at this
    simp at this
    omega
  rw [verify_eq K data hne] at hok
  have hsum : bsum data % 256 = 0 := by
    by_cases hc : data[0]? = some (1 : Byte) ∧ bsum data % 256 = 0
    · exact hc.2
    · simp [hc] at hok
  have := flip_bit_bsum data p bit hp hsum
  rw [verify_eq K _ hne2]
  simp [this]

theorem C6_mutation_sensitivity_witness :
    ipmi_verify_fru_data example_config (flip_bit [1, 3, 0xFC] 1 5) = some Ret.type_err :=
  C6_mutation_sensitivity example_config [1, 3, 0xFC] 1 5 (by decide) (by decide)

/-! ## Type/length decoder and field walk: proofs -/

theorem data_length_le (area : List Byte) (c : Nat) : data_length area c ≤ 63 := by
  unfold data_length
  cases area[c]? with
  | none => simp
  | some b => exact Nat.and_le_right

theorem data_length_eq (area : List Byte) (c : Nat) (b : Byte) (h : area[c]? = some b) :
    data_length area c = b.val &&& 0x3F := by
  simp [data_length, h]

/-- The type/length decoder in closed form, for a cursor inside the area. -/
theorem parse_eq (K : Config) (area : List Byte) (c : Nat) (hc : c < area.length)
    (field : Option ipmi_fru_field_t) :
    ipmi_parse_type_length K area c field =
      if c + 1 + data_length area c > area.length then
        some (Ret.minus_one, data_length area c, field)
      else some (Ret.ok, data_length area c, field.map (fun _ => field_at K area c)) := by
  have hget : area[c]? = some (area.get ⟨c, hc⟩) := by simp
  have hn := data_length_eq area c _ hget
  unfold ipmi_parse_type_length
  rw [hget]
  simp only [IPMI_FRU_TYPE_LENGTH_NUMBER_OF_DATA_BYTES_MASK, ← hn]
  by_cases hgt : c + 1 + data_length area c > area.length
  · simp [hgt]
  · simp only [hgt, if_false]
    cases field with
    | none => simp
    | some f => simp [field_at, memcpy, List.drop_replicate]

theorem parse_oob (K : Config) (area : List Byte) (c : Nat) (hc : area.length ≤ c)
    (field : Option ipmi_fru_field_t) : ipmi_parse_type_length K area c field = none := by
  unfold ipmi_parse_type_length
  rw [List.getElem?_eq_none hc]

theorem field_loop_oob (K : Config) (area : List Byte) (m : Nat) (p : Bool) (ps : List Bool)
    (i c : Nat) (f : ipmi_fru_field_t) (hc : area.length ≤ c) :
    field_loop K area m (p :: ps) i c f = none := by
  unfold field_loop
  rw [List.getElem?_eq_none hc]

theorem field_loop_term (K : Config) (area : List Byte) (m : Nat) (p : Bool) (ps : List Bool)
    (i c : Nat) (f : ipmi_fru_field_t) (hc : c < area.length) (ht : terminates area m i c) :
    field_loop K area m (p :: ps) i c f = some (Ret.ok, if p then mem_clear_field K else f) := by
  have hget : area[c]? = some (area.get ⟨c, hc⟩) := by simp
  unfold field_loop
  rw [hget]
  unfold terminates at ht
  rw [hget] at ht
  simp only [Option.some.injEq] at ht
  simp only [IPMI_FRU_SENTINEL_VALUE, ge_iff_le]
  rw [if_pos ht]

theorem field_loop_step (K : Config) (area : List Byte) (m : Nat) (p : Bool) (ps : List Bool)
    (i c : Nat) (f : ipmi_fru_field_t) (hc : c < area.length) (ht : ¬ terminates area m i c)
    (hfit : c + 1 + data_length area c ≤ area.length) :
    field_loop K area m (p :: ps) i c f =
      field_loop K area m ps (i + 1) (c + 1 + data_length area c)
        (if p then field_at K area c else f) := by
  have hget : area[c]? = some (area.get ⟨c, hc⟩) := by simp
  rw [field_loop]
  rw [hget]
  unfold terminates at ht
  rw [hget] at ht
  simp only [Option.some.injEq] at ht
  simp only [IPMI_FRU_SENTINEL_VALUE, ge_iff_le]
  rw [if_neg ht, parse_eq K area c hc, if_neg (by omega)]
  cases p <;> simp

theorem field_loop_fail (K : Config) (area : List Byte) (m : Nat) (p : Bool) (ps : List Bool)
    (i c : Nat) (f : ipmi_fru_field_t) (hc : c < area.length) (ht : ¬ terminates area m i c)
    (hfit : c + 1 + data_length area c > area.length) :
    field_loop K area m (p :: ps) i c f =
      some (Ret.minus_one, if p then mem_clear_field K else f) := by
  have hget : area[c]? = some (area.get ⟨c, hc⟩) := by simp
  rw [field_loop]
  rw [hget]
  unfold terminates at ht
  rw [hget] at ht
  simp only [Option.some.injEq] at ht
  simp only [IPMI_FRU_SENTINEL_VALUE, ge_iff_le]
  rw [if_neg ht, parse_eq K area c hc, if_pos hfit]
  cases p <;> simp

theorem wire_getElem? (n k t : Nat) (ht : t < n) :
    (wire n k)[t]? = some (decide (k = t)) := by
  unfold wire
  rw [List.getElem?_set]
  by_cases h : k = t
  · subst h
    simp [ht]
  · simp [h, ht]

theorem drop_of_getElem? {α : Type} (l : List α) (t : Nat) (x : α) (h : l[t]? = some x) :
    l.drop t = x :: l.drop (t + 1) := by
  obtain ⟨hlt, rfl⟩ := List.getElem?_eq_some.mp h
  exact List.drop_eq_getElem_cons hlt

theorem wire_drop (n k t : Nat) (ht : t < n) :
    (wire n k).drop t = decide (k = t) :: (wire n k).drop (t + 1) :=
  drop_of_getElem? _ _ _ (wire_getElem? n k t ht)

theorem wire_drop_succ (n k : Nat) :
    (wire n k).drop (k + 1) = List.replicate (n - (k + 1)) false := by
  unfold wire
  rw [List.drop_set_of_lt _ _ (Nat.lt_succ_self k), List.drop_replicate]

theorem walks_mono (area : List Byte) (m c0 t u : Nat) (h : walks area m c0 u) (htu : t ≤ u) :
    walks area m c0 t :=
  fun j hj => h j (Nat.lt_of_lt_of_le hj htu)

/-- While the walk decodes, the loop on a record with the single slot `k` set is the
loop on the remaining slots, with the field of slot `k` captured once `k` is passed. -/
theorem walk_upto (K : Config) (area : List Byte) (m n k c0 : Nat) (f : ipmi_fru_field_t)
    (t : Nat) (ht : t ≤ n) (hw : walks area m c0 t) :
    field_loop K area m (wire n k) 0 c0 f =
      field_loop K area m ((wire n k).drop t) t (cursor area c0 t)
        (if k < t then field_at K area (cursor area c0 k) else f) := by
  induction t with
  | zero => simp [cursor]
  | succ t ih =>
    have hlt : t < n := ht
    rw [ih (Nat.le_of_lt hlt) (walks_mono area m c0 t (t + 1) hw (Nat.le_succ t))]
    obtain ⟨h1, h2, h3⟩ := hw t (Nat.lt_succ_self t)
    rw [wire_drop n k t hlt, field_loop_step K area m _ _ t _ _ h1 h2 h3]
    have hc : cursor area c0 (t + 1) = cursor area c0 t + 1 + data_length area (cursor area c0 t) :=
      rfl
    rw [hc]
    congr 1
    by_cases hkt : k = t
    · subst hkt
      simp
    · by_cases hlt2 : k < t
      · have : k < t + 1 := by omega
        simp [hkt, hlt2, this]
      · have : ¬ k < t + 1 := by omega
        simp [hkt, hlt2, this]

/-- Slots whose pointer is NULL leave the field as it is. -/
theorem field_loop_unwired (K : Config) (area : List Byte) (m : Nat) (r : Nat) (i c : Nat)
    (f g : ipmi_fru_field_t) (rv : Ret)
    (h : field_loop K area m (List.replicate r false) i c f = some (rv, g)) : g = f := by
  induction r generalizing i c with
  | zero =>
    simp only [List.replicate, field_loop, Option.some.injEq, Prod.mk.injEq] at h
    exact h.2.symm
  | succ r ih =>
    rw [List.replicate_succ] at h
    by_cases hc : c < area.length
    · by_cases ht : terminates area m i c
      · rw [field_loop_term K area m _ _ i c f hc ht] at h
        simp at h
        exact h.2.symm
      · by_cases hfit : c + 1 + data_length area c ≤ area.length
        · rw [field_loop_step K area m _ _ i c f hc ht hfit] at h
          exact ih _ _ h
        · rw [field_loop_fail K area m _ _ i c f hc ht (by omega)] at h
          simp at h
          exact h.2.symm
    · rw [field_loop_oob K area m _ _ i c f (by omega)] at h
      cases h

/-- A successful loop on a record with the single slot `k` set decodes every slot at
which no termination condition holds. -/
theorem walks_of_success (K : Config) (area : List Byte) (m n k c0 : Nat)
    (f g : ipmi_fru_field_t) (t : Nat) (ht : t ≤ n)
    (hnt : ∀ j, j < t → ¬ terminates area m j (cursor area c0 j))
    (hok : field_loop K area m (wire n k) 0 c0 f = some (Ret.ok, g)) :
    walks area m c0 t := by
  induction t with
  | zero => intro j hj; omega
  | succ t ih =>
    have hlt : t < n := ht
    have hw : walks area m c0 t := ih (Nat.le_of_lt hlt) (fun j hj => hnt j (by omega))
    have hnt_t := hnt t (Nat.lt_succ_self t)
    rw [walk_upto K area m n k c0 f t (Nat.le_of_lt hlt) hw, wire_drop n k t hlt] at hok
    have hc : cursor area c0 t < area.length := by
      by_contra hc
      rw [field_loop_oob K area m _ _ t _ _ (by omega)] at hok
      cases hok
    have hfit : cursor area c0 t + 1 + data_length area (cursor area c0 t) ≤ area.length := by
      by_contra hfit
      rw [field_loop_fail K area m _ _ t _ _ hc hnt_t (by omega)] at hok
      simp at hok
    intro j hj
    by_cases hjt : j = t
    · subst hjt
      exact ⟨hc, hnt_t, hfit⟩
    · exact hw j (by omega)

/-! ## Area decoders: proofs -/

theorem verify_ok_ne_nil (K : Config) (area : List Byte)
    (h : ipmi_verify_fru_data K area = some Ret.ok) : area ≠ [] := by
  intro hn
  rw [hn] at h
  simp [ipmi_verify_fru_data] at h

/-- The product decoder on a verified area whose `language_code` pointer is NULL. -/
theorem product_area_eq (K : Config) (area : List Byte) (slots : List Bool)
    (f : ipmi_fru_field_t) (hv : ipmi_verify_fru_data K area = some Ret.ok) :
    ipmi_fru_product_info_area K area ⟨false, slots⟩ f =
      (field_loop K area K.IPMI_FRU_PRODUCT_AREA_MIN_LEN slots 0 3 f).map
        (fun r => (r.1, r.2, none)) := by
  have hne : area.length ≠ 0 := by
    have := verify_ok_ne_nil K area hv
    simpa using this
  unfold ipmi_fru_product_info_area
  rw [if_neg hne, hv]
  simp only [ne_eq, not_true_eq_false, if_false, Bool.false_eq_true]
  cases field_loop K area K.IPMI_FRU_PRODUCT_AREA_MIN_LEN slots 0 3 f <;> rfl

/-- The board decoder on a verified area whose `language_code` and `mfg_time`
pointers are NULL. -/
theorem board_area_eq (K : Config) (area : List Byte) (slots : List Bool)
    (f : ipmi_fru_field_t) (hv : ipmi_verify_fru_data K area = some Ret.ok) :
    ipmi_fru_board_info_area K area ⟨false, false, slots⟩ f =
      (field_loop K area K.IPMI_FRU_BOARD_AREA_MIN_LEN slots 0 6 f).map
        (fun r => (r.1, r.2, none, none)) := by
  have hne : area.length ≠ 0 := by
    have := verify_ok_ne_nil K area hv
    simpa using this
  unfold ipmi_fru_board_info_area
  rw [if_neg hne, hv]
  simp only [ne_eq, not_true_eq_false, if_false, Bool.false_eq_true,
    IPMI_FRU_BOARD_INFO_MFG_TIME_LENGTH]
  cases field_loop K area K.IPMI_FRU_BOARD_AREA_MIN_LEN slots 0 6 f <;> rfl

/-- A successful product decode passed verification and left its loop with success. -/
theorem product_area_ok_inv (K : Config) (area : List Byte) (info : ipmi_product_info_t)
    (f g : ipmi_fru_field_t) (out : Option Byte)
    (h : ipmi_fru_product_info_area K area info f = some (Ret.ok, g, out)) :
    ipmi_verify_fru_data K area = some Ret.ok ∧
      field_loop K area K.IPMI_FRU_PRODUCT_AREA_MIN_LEN info.fields 0 3 f = some (Ret.ok, g) := by
  unfold ipmi_fru_product_info_area at h
  by_cases hlen : area.length = 0
  · simp [hlen] at h
  · cases hv : ipmi_verify_fru_data K area with
    | none => simp [hlen, hv] at h
    | some rv =>
      by_cases hrv : rv = Ret.ok
      · subst hrv
        refine ⟨rfl, ?_⟩
        simp only [hlen, hv, if_false, ne_eq, not_true_eq_false] at h
        generalize (if info.language_code = true then Option.map some area[2]? else some none)
          = lc at h
        cases lc with
        | none => cases h
        | some v =>
          cases hl : field_loop K area K.IPMI_FRU_PRODUCT_AREA_MIN_LEN info.fields 0 3 f with
          | none => simp [hl] at h
          | some r =>
            obtain ⟨r1, r2⟩ := r
            simp only [hl, Nat.reduceAdd, Option.some.injEq, Prod.mk.injEq] at h
            rw [h.1, h.2.1]
      · simp [hlen, hv, hrv] at h

/-- A successful board decode passed verification and left its loop with success. -/
theorem board_area_ok_inv (K : Config) (area : List Byte) (info : ipmi_board_info_t)
    (f g : ipmi_fru_field_t) (out : Option Byte × Option (List Byte))
    (h : ipmi_fru_board_info_area K area info f = some (Ret.ok, g, out)) :
    ipmi_verify_fru_data K area = some Ret.ok ∧
      field_loop K area K.IPMI_FRU_BOARD_AREA_MIN_LEN info.fields 0 6 f = some (Ret.ok, g) := by
  unfold ipmi_fru_board_info_area at h
  by_cases hlen : area.length = 0
  · simp [hlen] at h
  · cases hv : ipmi_verify_fru_data K area with
    | none => simp [hlen, hv] at h
    | some rv =>
      by_cases hrv : rv = Ret.ok
      · subst hrv
        refine ⟨rfl, ?_⟩
        simp only [hlen, hv, if_false, ne_eq, not_true_eq_false,
          IPMI_FRU_BOARD_INFO_MFG_TIME_LENGTH, Nat.reduceAdd] at h
        generalize (if info.language_code = true then Option.map some area[2]? else some none)
          = lc at h
        cases lc with
        | none => cases h
        | some v =>
          simp only at h
          generalize (if info.mfg_time = true then
            if 6 ≤ area.length then some (some (List.take 3 (List.drop 3 area))) else none
            else some none) = mt at h
          cases mt with
          | none => cases h
          | some w =>
            cases hl : field_loop K area K.IPMI_FRU_BOARD_AREA_MIN_LEN info.fields 0 6 f with
            | none => simp [hl] at h
            | some r =>
              obtain ⟨r1, r2⟩ := r
              simp only [hl, Option.some.injEq, Prod.mk.injEq] at h
              rw [h.1, h.2.1]
      · simp [hlen, hv, hrv] at h

/-- The loop on a single set slot `k`, when every slot up to `k` is decoded and the
loop ends with success, leaves the field decoded at the cursor of slot `k`. -/
theorem field_loop_slot (K : Config) (area : List Byte) (m n k c0 : Nat)
    (f g : ipmi_fru_field_t) (hk : k < n)
    (hnt : ∀ j, j ≤ k → ¬ terminates area m j (cursor area c0 j))
    (hok : field_loop K area m (wire n k) 0 c0 f = some (Ret.ok, g)) :
    g = field_at K area (cursor area c0 k) ∧
      cursor area c0 k + 1 + data_length area (cursor area c0 k) ≤ area.length := by
  have hw : walks area m c0 (k + 1) :=
    walks_of_success K area m n k c0 f g (k + 1) hk (fun j hj => hnt j (by omega)) hok
  rw [walk_upto K area m n k c0 f (k + 1) hk hw, wire_drop_succ] at hok
  have := field_loop_unwired K area m _ _ _ _ _ _ hok
  simp only [Nat.lt_succ_self, if_true] at this
  exact ⟨this, (hw k (Nat.lt_succ_self k)).2.2⟩

/-! ## Claims on the type/length decoder and the area decoders -/

theorem field_at_take (K : Config) (area : List Byte) (c : Nat)
    (hfit : c + 1 + data_length area c ≤ area.length) :
    ((area.drop (c + 1)).take (data_length area c)).length = data_length area c ∧
    (field_at K area c).type_length_field.take (data_length area c) =
      (area.drop (c + 1)).take (data_length area c) := by
  have hl : ((area.drop (c + 1)).take (data_length area c)).length = data_length area c := by
    rw [List.length_take, List.length_drop]
    omega
  refine ⟨hl, ?_⟩
  simp only [field_at]
  rw [List.take_append_of_le_length (by omega), List.take_of_length_le (by omega)]

/-- C1. In `ipmi_fru_product_info_area` (first field at offset 3) and in
`ipmi_fru_board_info_area` (first field at offset 6), called with a record whose only
set pointer is slot `k`: if no termination condition holds at the slots `0 .. k` of the
cursor sequence and the decoder returns `0`, the field has the length
`area[c_k] & 0x3F`, its bytes are `area[c_k+1 .. c_k+1+length)` and the rest of its
buffer is zero. -/
theorem C1_slot_correctness (K : Config) (area : List Byte) (n k : Nat) (hk : k < n)
    (lc : Bool) (f0 g : ipmi_fru_field_t) :
    (∀ out : Option Byte,
      (∀ j, j ≤ k → ¬ terminates area K.IPMI_FRU_PRODUCT_AREA_MIN_LEN j (cursor area 3 j)) →
      ipmi_fru_product_info_area K area ⟨lc, wire n k⟩ f0 = some (Ret.ok, g, out) →
      g.type_length_field_length = data_length area (cursor area 3 k) ∧
      g.type_length_field.take g.type_length_field_length =
        (area.drop (cursor area 3 k + 1)).take (data_length area (cursor area 3 k)) ∧
      cursor area 3 k + 1 + g.type_length_field_length ≤ area.length ∧
      g = field_at K area (cursor area 3 k)) ∧
    (∀ (mt : Bool) (out : Option Byte × Option (List Byte)),
      (∀ j, j ≤ k → ¬ terminates area K.IPMI_FRU_BOARD_AREA_MIN_LEN j (cursor area 6 j)) →
      ipmi_fru_board_info_area K area ⟨lc, mt, wire n k⟩ f0 = some (Ret.ok, g, out) →
      g.type_length_field_length = data_length area (cursor area 6 k) ∧
      g.type_length_field.take g.type_length_field_length =
        (area.drop (cursor area 6 k + 1)).take (data_length area (cursor area 6 k)) ∧
      cursor area 6 k + 1 + g.type_length_field_length ≤ area.length ∧
      g = field_at K area (cursor area 6 k)) := by
  constructor
  · intro out hnt hok
    have hl := (product_area_ok_inv K area _ f0 g out hok).2
    obtain ⟨hg, hfit⟩ := field_loop_slot K area _ n k 3 f0 g hk hnt hl
    subst hg
    exact ⟨rfl, (field_at_take K area _ hfit).2, hfit, rfl⟩
  · intro mt out hnt hok
    have hl := (board_area_ok_inv K area _ f0 g out hok).2
    obtain ⟨hg, hfit⟩ := field_loop_slot K area _ n k 6 f0 g hk hnt hl
    subst hg
    exact ⟨rfl, (field_at_take K area _ hfit).2, hfit, rfl⟩

set_option maxRecDepth 100000 in
theorem C1_slot_correctness_witness :
    (field_at example_config example_product_area 16).type_length_field_length =
        data_length example_product_area (cursor example_product_area 3 4) ∧
      (field_at example_config example_product_area 16).type_length_field.take
          (field_at example_config example_product_area 16).type_length_field_length =
        (example_product_area.drop (cursor example_product_area 3 4 + 1)).take
          (data_length example_product_area (cursor example_product_area 3 4)) ∧
      cursor example_product_area 3 4 + 1 +
          (field_at example_config example_product_area 16).type_length_field_length ≤
        example_product_area.length ∧
      field_at example_config example_product_area 16 =
        field_at example_config example_product_area (cursor example_product_area 3 4) :=
  (C1_slot_correctness example_config example_product_area 7 4 (by decide) false
    (mem_clear_field example_config) (field_at example_config example_product_area 16)).1
    none (by decide) (by decide)

/-- C2. For a cursor inside the area, with `n = area[cursor] & 0x3F`: `n` is at most 63
and at most the capacity of the field buffer; `ipmi_parse_type_length` returns `-1`
exactly when `cursor + 1 + n` exceeds the area length and `0` otherwise, and stores `n`
in `number_of_data_bytes` in both cases; on success a non-NULL field gets the length
`n`, the bytes `area[cursor+1 .. cursor+1+n)` and zeros in the rest of its buffer; and
the loop of the area decoders goes on at cursor `cursor + 1 + n`. -/
theorem C2_type_length_contract (K : Config) (area : List Byte) (c : Nat)
    (hc : c < area.length) (field : Option ipmi_fru_field_t) :
    data_length area c ≤ 63 ∧
    data_length area c ≤ K.IPMI_FRU_AREA_TYPE_LENGTH_FIELD_MAX ∧
    (c + 1 + data_length area c > area.length →
      ipmi_parse_type_length K area c field =
        some (Ret.minus_one, data_length area c, field)) ∧
    (c + 1 + data_length area c ≤ area.length →
      ipmi_parse_type_length K area c field =
        some (Ret.ok, data_length area c, field.map (fun _ => field_at K area c)) ∧
      (field_at K area c).type_length_field_length = data_length area c ∧
      (field_at K area c).type_length_field =
        (area.drop (c + 1)).take (data_length area c) ++
          List.replicate (K.IPMI_FRU_AREA_TYPE_LENGTH_FIELD_MAX - data_length area c) 0 ∧
      ((area.drop (c + 1)).take (data_length area c)).length = data_length area c ∧
      (field_at K area c).type_length_field.length = K.IPMI_FRU_AREA_TYPE_LENGTH_FIELD_MAX ∧
      (∀ (m i : Nat) (p : Bool) (ps : List Bool) (f : ipmi_fru_field_t),
        ¬ terminates area m i c →
        field_loop K area m (p :: ps) i c f =
          field_loop K area m ps (i + 1) (c + 1 + data_length area c)
            (if p then field_at K area c else f))) := by
  have h63 := data_length_le area c
  have hmax := K.field_max_ge
  refine ⟨h63, by omega, ?_, ?_⟩
  · intro hgt
    rw [parse_eq K area c hc, if_pos hgt]
  · intro hfit
    have hl := (field_at_take K area c hfit).1
    refine ⟨?_, rfl, rfl, hl, ?_, ?_⟩
    · rw [parse_eq K area c hc, if_neg (by omega)]
    · simp only [field_at, List.length_append, List.length_replicate, hl]
      omega
    · intro m i p ps f ht
      exact field_loop_step K area m p ps i c f hc ht hfit

theorem C2_type_length_contract_witness :
    data_length example_product_area 16 ≤ 63 ∧
    data_length example_product_area 16 ≤ example_config.IPMI_FRU_AREA_TYPE_LENGTH_FIELD_MAX ∧
    (16 + 1 + data_length example_product_area 16 > example_product_area.length →
      ipmi_parse_type_length example_config example_product_area 16
          (some (mem_clear_field example_config)) =
        some (Ret.minus_one, data_length example_product_area 16,
          some (mem_clear_field example_config))) ∧
    (16 + 1 + data_length example_product_area 16 ≤ example_product_area.length →
      ipmi_parse_type_length example_config example_product_area 16
          (some (mem_clear_field example_config)) =
        some (Ret.ok, data_length example_product_area 16,
          (some (mem_clear_field example_config)).map
            (fun _ => field_at example_config example_product_area 16)) ∧
      (field_at example_config example_product_area 16).type_length_field_length =
        data_length example_product_area 16 ∧
      (field_at example_config example_product_area 16).type_length_field =
        (example_product_area.drop (16 + 1)).take (data_length example_product_area 16) ++
          List.replicate (example_config.IPMI_FRU_AREA_TYPE_LENGTH_FIELD_MAX -
            data_length example_product_area 16) 0 ∧
      ((example_product_area.drop (16 + 1)).take
        (data_length example_product_area 16)).length = data_length example_product_area 16 ∧
      (field_at example_config example_product_area 16).type_length_field.length =
        example_config.IPMI_FRU_AREA_TYPE_LENGTH_FIELD_MAX ∧
      (∀ (m i : Nat) (p : Bool) (ps : List Bool) (f : ipmi_fru_field_t),
        ¬ terminates example_product_area m i 16 →
        field_loop example_config example_product_area m (p :: ps) i 16 f =
          field_loop example_config example_product_area m ps (i + 1)
            (16 + 1 + data_length example_product_area 16)
            (if p then field_at example_config example_product_area 16 else f))) :=
  C2_type_length_contract example_config example_product_area 16 (by decide)
    (some (mem_clear_field example_config))

/-- C7, evaluated where it fails. `overrun_product_area` and `overrun_board_area` pass
verification; the first field of each fits exactly, the cursor becomes 8, the length of
the area, and the next iteration of the loop reads `areabufptr[8]`, outside the
area, whatever the build-time constants and the record are, as long as the record
has two slots. An extraction from `overrun_device` performs that read. -/
theorem C7_read_past_area (K : Config) (p0 p1 : Bool) (rest : List Bool)
    (f : ipmi_fru_field_t) :
    ipmi_verify_fru_data K overrun_product_area = some Ret.ok ∧
    ipmi_fru_product_info_area K overrun_product_area ⟨false, p0 :: p1 :: rest⟩ f = none ∧
    ipmi_verify_fru_data K overrun_board_area = some Ret.ok ∧
    ipmi_fru_board_info_area K overrun_board_area ⟨false, false, p0 :: p1 :: rest⟩ f = none ∧
    dfd_get_fru_data example_config (eeprom overrun_device) dfd_dev_info_type.SN [0, 0, 0, 0]
      = none := by
  have hvp : ipmi_verify_fru_data K overrun_product_area = some Ret.ok := by
    rw [verify_eq K _ (by decide)]
    decide
  have hvb : ipmi_verify_fru_data K overrun_board_area = some Ret.ok := by
    rw [verify_eq K _ (by decide)]
    decide
  refine ⟨hvp, ?_, hvb, ?_, by decide⟩
  · rw [product_area_eq K _ _ _ hvp]
    have ht : ¬ terminates overrun_product_area K.IPMI_FRU_PRODUCT_AREA_MIN_LEN 0 3 := by
      simp [terminates, overrun_product_area]
    rw [field_loop_step K _ _ _ _ 0 3 f (by decide) ht (by decide)]
    have hd : 3 + 1 + data_length overrun_product_area 3 = 8 := by decide
    rw [hd, field_loop_oob K _ _ _ _ _ 8 _ (by decide)]
    rfl
  · rw [board_area_eq K _ _ _ hvb]
    have ht : ¬ terminates overrun_board_area K.IPMI_FRU_BOARD_AREA_MIN_LEN 0 6 := by
      simp [terminates, overrun_board_area]
    rw [field_loop_step K _ _ _ _ 0 6 f (by decide) ht (by decide)]
    have hd : 6 + 1 + data_length overrun_board_area 6 = 8 := by decide
    rw [hd, field_loop_oob K _ _ _ _ _ 8 _ (by decide)]
    rfl

theorem terminates_lt (area : List Byte) (m i c : Nat) (hne : area ≠ [])
    (ht : terminates area m i c) : c < area.length := by
  have hpos : 0 < area.length := List.length_pos.mpr hne
  rcases ht with ⟨h, _⟩ | h
  · exact (List.getElem?_eq_some.mp h).1
  · omega

/-- The loop on a record with the single slot `k` set, when a termination condition
holds at slot `t` after the slots before it were decoded. -/
theorem field_loop_stop (K : Config) (area : List Byte) (m n k c0 t : Nat)
    (f : ipmi_fru_field_t) (hne : area ≠ []) (ht : t < n) (hw : walks area m c0 t)
    (hterm : terminates area m t (cursor area c0 t)) :
    field_loop K area m (wire n k) 0 c0 f =
      some (Ret.ok, if k = t then mem_clear_field K else captured K area c0 k t f) := by
  rw [walk_upto K area m n k c0 f t (Nat.le_of_lt ht) hw, wire_drop n k t ht,
    field_loop_term K area m _ _ t _ _ (terminates_lt area m t _ hne hterm) hterm]
  by_cases hkt : k = t
  · simp [hkt]
  · simp [hkt, captured]

/-- The loop on a record with the single slot `k` set, when the byte at the cursor of
slot `t` is the sentinel, `t` is below the minimum field count and the cursor is not at
the last byte. -/
theorem field_loop_sentinel_field (K : Config) (area : List Byte) (m n k c0 t : Nat)
    (f : ipmi_fru_field_t) (ht : t < n) (hw : walks area m c0 t)
    (hs : area[cursor area c0 t]? = some (0xC1 : Byte))
    (hnl : cursor area c0 t ≠ area.length - 1) (hmin : t < m) :
    data_length area (cursor area c0 t) = 1 ∧
    field_loop K area m (wire n k) 0 c0 f =
      field_loop K area m ((wire n k).drop (t + 1)) (t + 1) (cursor area c0 t + 2)
        (captured K area c0 k (t + 1) f) := by
  have hlt : cursor area c0 t < area.length := (List.getElem?_eq_some.mp hs).1
  have hd : data_length area (cursor area c0 t) = 1 := by
    rw [data_length_eq area _ _ hs]
    decide
  have hnt : ¬ terminates area m t (cursor area c0 t) := by
    rintro (⟨_, h⟩ | h)
    · omega
    · exact hnl h
  have hw2 : walks area m c0 (t + 1) := by
    intro j hj
    by_cases hjt : j = t
    · subst hjt
      exact ⟨hlt, hnt, by omega⟩
    · exact hw j (by omega)
  refine ⟨hd, ?_⟩
  rw [walk_upto K area m n k c0 f (t + 1) ht hw2]
  have hc : cursor area c0 (t + 1) = cursor area c0 t + 2 := by
    show cursor area c0 t + 1 + data_length area (cursor area c0 t) = _
    rw [hd]
  rw [hc]
  rfl

/-! ## Extraction: proofs -/

/-- `dfd_get_fru_data` after its three reads delivered `area`. -/
theorem get_fru_data_of_read (K : Config) (sys : Sys) (type : dfd_dev_info_type)
    (buf area : List Byte) (hb : buf ≠ []) (hr : area_read K sys product_offset area) :
    dfd_get_fru_data K sys type buf =
      if (dfd_set_fru_product_info K type).1 ≠ Ret.ok then
        some ((dfd_set_fru_product_info K type).1, buf)
      else
        match ipmi_fru_product_info_area K area (dfd_set_fru_product_info K type).2
            (mem_clear_field K) with
        | none => none
        | some (ret, vpd_info, _) =>
          if ret ≠ Ret.ok then some (ret, buf) else some (Ret.ok, copy_out buf vpd_info) := by
  obtain ⟨info, fru_len, fru_data, h1, h2, h3, h4, h5, h6⟩ := hr
  have hlen : buf.length ≠ 0 := by simpa using hb
  subst h6
  unfold dfd_get_fru_data dfd_get_frue2prom_info
  simp only [hlen, h1, h2, h3, h4, h5, if_false, ne_eq, not_true_eq_false, copy_out]
  rfl

/-- `dfd_get_fru_board_data` after its three reads delivered `area`. -/
theorem get_fru_board_data_of_read (K : Config) (sys : Sys) (type : dfd_dev_info_type)
    (buf area : List Byte) (hb : buf ≠ []) (hr : area_read K sys board_offset area) :
    dfd_get_fru_board_data K sys type buf =
      if (dfd_set_fru_board_info K type).1 ≠ Ret.ok then
        some ((dfd_set_fru_board_info K type).1, buf)
      else
        match ipmi_fru_board_info_area K area (dfd_set_fru_board_info K type).2
            (mem_clear_field K) with
        | none => none
        | some (ret, vpd_info, _) =>
          if ret ≠ Ret.ok then some (ret, buf) else some (Ret.ok, copy_out buf vpd_info) := by
  obtain ⟨info, fru_len, fru_data, h1, h2, h3, h4, h5, h6⟩ := hr
  have hlen : buf.length ≠ 0 := by simpa using hb
  subst h6
  unfold dfd_get_fru_board_data dfd_get_frue2prom_info
  simp only [hlen, h1, h2, h3, h4, h5, if_false, ne_eq, not_true_eq_false, copy_out]
  rfl

theorem copy_out_zero (buf : List Byte) (vpd_info : ipmi_fru_field_t)
    (h : vpd_info.type_length_field_length = 0) : copy_out buf vpd_info = buf := by
  simp [copy_out, memcpy, h]

/-- C8. In both area decoders, called on a verified area with a record whose only set
pointer is slot `k`: when the walk arrives at slot `t` and the byte at the cursor is
`0xC1` and not the last byte of the area, then below the minimum field count the byte
is decoded by `ipmi_parse_type_length` as a field (of one data byte) and the loop goes
on with slot `t + 1` two bytes further; from the minimum field count on, the decoder
returns `0` without decoding it, the field of slot `t` is cleared, and with the field
cleared at the call (as the extractions do) every slot `k ≥ t` ends with length 0. -/
theorem C8_sentinel_before_minimum (K : Config) (area : List Byte) (n k t : Nat)
    (f0 : ipmi_fru_field_t) (hv : ipmi_verify_fru_data K area = some Ret.ok) (ht : t < n) :
    (walks area K.IPMI_FRU_PRODUCT_AREA_MIN_LEN 3 t →
      area[cursor area 3 t]? = some (0xC1 : Byte) →
      cursor area 3 t ≠ area.length - 1 →
      (t < K.IPMI_FRU_PRODUCT_AREA_MIN_LEN →
        ipmi_parse_type_length K area (cursor area 3 t) (some (mem_clear_field K)) =
          some (Ret.ok, 1, some (field_at K area (cursor area 3 t))) ∧
        (field_at K area (cursor area 3 t)).type_length_field_length = 1 ∧
        ipmi_fru_product_info_area K area ⟨false, wire n k⟩ f0 =
          (field_loop K area K.IPMI_FRU_PRODUCT_AREA_MIN_LEN ((wire n k).drop (t + 1)) (t + 1)
            (cursor area 3 t + 2) (captured K area 3 k (t + 1) f0)).map
            (fun r => (r.1, r.2, none))) ∧
      (K.IPMI_FRU_PRODUCT_AREA_MIN_LEN ≤ t →
        ipmi_fru_product_info_area K area ⟨false, wire n k⟩ f0 =
          some (Ret.ok, if k = t then mem_clear_field K else captured K area 3 k t f0, none) ∧
        (t ≤ k →
          ipmi_fru_product_info_area K area ⟨false, wire n k⟩ (mem_clear_field K) =
            some (Ret.ok, mem_clear_field K, none)))) ∧
    (walks area K.IPMI_FRU_BOARD_AREA_MIN_LEN 6 t →
      area[cursor area 6 t]? = some (0xC1 : Byte) →
      cursor area 6 t ≠ area.length - 1 →
      (t < K.IPMI_FRU_BOARD_AREA_MIN_LEN →
        ipmi_parse_type_length K area (cursor area 6 t) (some (mem_clear_field K)) =
          some (Ret.ok, 1, some (field_at K area (cursor area 6 t))) ∧
        (field_at K area (cursor area 6 t)).type_length_field_length = 1 ∧
        ipmi_fru_board_info_area K area ⟨false, false, wire n k⟩ f0 =
          (field_loop K area K.IPMI_FRU_BOARD_AREA_MIN_LEN ((wire n k).drop (t + 1)) (t + 1)
            (cursor area 6 t + 2) (captured K area 6 k (t + 1) f0)).map
            (fun r => (r.1, r.2, none, none))) ∧
      (K.IPMI_FRU_BOARD_AREA_MIN_LEN ≤ t →
        ipmi_fru_board_info_area K area ⟨false, false, wire n k⟩ f0 =
          some (Ret.ok, if k = t then mem_clear_field K else captured K area 6 k t f0,
            none, none) ∧
        (t ≤ k →
          ipmi_fru_board_info_area K area ⟨false, false, wire n k⟩ (mem_clear_field K) =
            some (Ret.ok, mem_clear_field K, none, none)))) ∧
    (mem_clear_field K).type_length_field_length = 0 := by
  have hne := verify_ok_ne_nil K area hv
  have hpos : 0 < area.length := List.length_pos.mpr hne
  have key : ∀ (m c0 : Nat) (f : ipmi_fru_field_t), walks area m c0 t →
      area[cursor area c0 t]? = some (0xC1 : Byte) → cursor area c0 t ≠ area.length - 1 →
      (t < m →
        ipmi_parse_type_length K area (cursor area c0 t) (some (mem_clear_field K)) =
          some (Ret.ok, 1, some (field_at K area (cursor area c0 t))) ∧
        (field_at K area (cursor area c0 t)).type_length_field_length = 1 ∧
        field_loop K area m (wire n k) 0 c0 f =
          field_loop K area m ((wire n k).drop (t + 1)) (t + 1) (cursor area c0 t + 2)
            (captured K area c0 k (t + 1) f)) ∧
      (m ≤ t →
        field_loop K area m (wire n k) 0 c0 f =
          some (Ret.ok, if k = t then mem_clear_field K else captured K area c0 k t f) ∧
        (t ≤ k → field_loop K area m (wire n k) 0 c0 (mem_clear_field K) =
          some (Ret.ok, mem_clear_field K))) := by
    intro m c0 f hw hs hnl
    have hlt : cursor area c0 t < area.length := (List.getElem?_eq_some.mp hs).1
    constructor
    · intro hmin
      obtain ⟨hd, hloop⟩ := field_loop_sentinel_field K area m n k c0 t f ht hw hs hnl hmin
      refine ⟨?_, hd, hloop⟩
      rw [parse_eq K area _ hlt, if_neg (by omega), hd]
      rfl
    · intro hmin
      have hterm : terminates area m t (cursor area c0 t) := Or.inl ⟨hs, hmin⟩
      refine ⟨field_loop_stop K area m n k c0 t f hne ht hw hterm, ?_⟩
      intro htk
      rw [field_loop_stop K area m n k c0 t _ hne ht hw hterm]
      have : ¬ k < t := by omega
      simp [captured, this]
  refine ⟨?_, ?_, rfl⟩
  · intro hw hs hnl
    obtain ⟨ha, hb⟩ := key K.IPMI_FRU_PRODUCT_AREA_MIN_LEN 3 f0 hw hs hnl
    refine ⟨fun hmin => ?_, fun hmin => ?_⟩
    · obtain ⟨h1, h2, h3⟩ := ha hmin
      exact ⟨h1, h2, by rw [product_area_eq K area _ _ hv, h3]⟩
    · obtain ⟨h1, h2⟩ := hb hmin
      refine ⟨by rw [product_area_eq K area _ _ hv, h1]; rfl, fun htk => ?_⟩
      rw [product_area_eq K area _ _ hv, h2 htk]
      rfl
  · intro hw hs hnl
    obtain ⟨ha, hb⟩ := key K.IPMI_FRU_BOARD_AREA_MIN_LEN 6 f0 hw hs hnl
    refine ⟨fun hmin => ?_, fun hmin => ?_⟩
    · obtain ⟨h1, h2, h3⟩ := ha hmin
      exact ⟨h1, h2, by rw [board_area_eq K area _ _ hv, h3]⟩
    · obtain ⟨h1, h2⟩ := hb hmin
      refine ⟨by rw [board_area_eq K area _ _ hv, h1]; rfl, fun htk => ?_⟩
      rw [board_area_eq K area _ _ hv, h2 htk]
      rfl

set_option maxRecDepth 100000 in
theorem C8_sentinel_before_minimum_witness :
    ipmi_fru_product_info_area example_config example_product_area ⟨false, wire 7 5⟩
        (mem_clear_field example_config) =
      some (Ret.ok, mem_clear_field example_config, none) ∧
    (ipmi_parse_type_length example_config sentinel_first_product_area
        (cursor sentinel_first_product_area 3 0) (some (mem_clear_field example_config)) =
      some (Ret.ok, 1, some (field_at example_config sentinel_first_product_area
        (cursor sentinel_first_product_area 3 0))) ∧
      (field_at example_config sentinel_first_product_area
        (cursor sentinel_first_product_area 3 0)).type_length_field_length = 1 ∧
      ipmi_fru_product_info_area example_config sentinel_first_product_area ⟨false, wire 7 0⟩
          (mem_clear_field example_config) =
        (field_loop example_config sentinel_first_product_area
          example_config.IPMI_FRU_PRODUCT_AREA_MIN_LEN ((wire 7 0).drop (0 + 1)) (0 + 1)
          (cursor sentinel_first_product_area 3 0 + 2)
          (captured example_config sentinel_first_product_area 3 0 (0 + 1)
            (mem_clear_field example_config))).map (fun r => (r.1, r.2, none))) :=
  ⟨((((C8_sentinel_before_minimum example_config example_product_area 7 5 5
        (mem_clear_field example_config) (by decide) (by decide)).1 (by decide) (by decide)
        (by decide)).2 (by decide)).2 (by decide)),
   (((C8_sentinel_before_minimum example_config sentinel_first_product_area 7 0 0
        (mem_clear_field example_config) (by decide) (by decide)).1 (by decide) (by decide)
        (by decide)).1 (by decide))⟩

/-- C9. On a verified area, when the walk decodes the slots before `t` and a
termination condition holds at slot `t`, and the only set pointer of the record is a
slot `k ≥ t`: the area decoder, called with the cleared field, returns `0` and leaves
the field cleared (length 0); and an extraction whose reads deliver that area and
whose selector sets slot `k` returns `0` and leaves the caller's buffer as it was. -/
theorem C9_field_count_truncation (K : Config) (area : List Byte) (n k t : Nat)
    (hv : ipmi_verify_fru_data K area = some Ret.ok) (hk : k < n) (htk : t ≤ k) :
    (walks area K.IPMI_FRU_PRODUCT_AREA_MIN_LEN 3 t →
      terminates area K.IPMI_FRU_PRODUCT_AREA_MIN_LEN t (cursor area 3 t) →
      ipmi_fru_product_info_area K area ⟨false, wire n k⟩ (mem_clear_field K) =
        some (Ret.ok, mem_clear_field K, none) ∧
      (mem_clear_field K).type_length_field_length = 0 ∧
      (∀ (sys : Sys) (type : dfd_dev_info_type) (buf : List Byte), buf ≠ [] →
        area_read K sys product_offset area →
        dfd_set_fru_product_info K type = (Ret.ok, ⟨false, wire n k⟩) →
        dfd_get_fru_data K sys type buf = some (Ret.ok, buf))) ∧
    (walks area K.IPMI_FRU_BOARD_AREA_MIN_LEN 6 t →
      terminates area K.IPMI_FRU_BOARD_AREA_MIN_LEN t (cursor area 6 t) →
      ipmi_fru_board_info_area K area ⟨false, false, wire n k⟩ (mem_clear_field K) =
        some (Ret.ok, mem_clear_field K, none, none) ∧
      (mem_clear_field K).type_length_field_length = 0 ∧
      (∀ (sys : Sys) (type : dfd_dev_info_type) (buf : List Byte), buf ≠ [] →
        area_read K sys board_offset area →
        dfd_set_fru_board_info K type = (Ret.ok, ⟨false, false, wire n k⟩) →
        dfd_get_fru_board_data K sys type buf = some (Ret.ok, buf))) := by
  have hne := verify_ok_ne_nil K area hv
  have key : ∀ (m c0 : Nat), walks area m c0 t → terminates area m t (cursor area c0 t) →
      field_loop K area m (wire n k) 0 c0 (mem_clear_field K) =
        some (Ret.ok, mem_clear_field K) := by
    intro m c0 hw hterm
    rw [field_loop_stop K area m n k c0 t _ hne (by omega) hw hterm]
    have : ¬ k < t := by omega
    simp [captured, this]
  constructor
  · intro hw hterm
    have hdec : ipmi_fru_product_info_area K area ⟨false, wire n k⟩ (mem_clear_field K) =
        some (Ret.ok, mem_clear_field K, none) := by
      rw [product_area_eq K area _ _ hv, key _ _ hw hterm]
      rfl
    refine ⟨hdec, rfl, ?_⟩
    intro sys type buf hb hr hsel
    rw [get_fru_data_of_read K sys type buf area hb hr, hsel]
    simp only [ne_eq, not_true_eq_false, if_false, hdec]
    rw [copy_out_zero buf _ rfl]
  · intro hw hterm
    have hdec : ipmi_fru_board_info_area K area ⟨false, false, wire n k⟩ (mem_clear_field K) =
        some (Ret.ok, mem_clear_field K, none, none) := by
      rw [board_area_eq K area _ _ hv, key _ _ hw hterm]
      rfl
    refine ⟨hdec, rfl, ?_⟩
    intro sys type buf hb hr hsel
    rw [get_fru_board_data_of_read K sys type buf area hb hr, hsel]
    simp only [ne_eq, not_true_eq_false, if_false, hdec]
    rw [copy_out_zero buf _ rfl]

set_option maxRecDepth 100000 in
theorem C9_field_count_truncation_witness :
    ipmi_fru_product_info_area example_config example_product_area ⟨false, wire 7 5⟩
        (mem_clear_field example_config) =
      some (Ret.ok, mem_clear_field example_config, none) ∧
    dfd_get_fru_data example_config (eeprom example_device) dfd_dev_info_type.ASSET_TAG
        [7, 7, 7] = some (Ret.ok, [7, 7, 7]) :=
  have h := (C9_field_count_truncation example_config example_product_area 7 5 5
    (by decide) (by decide) (by decide)).1 (by decide) (by decide)
  ⟨h.1, h.2.2 (eeprom example_device) dfd_dev_info_type.ASSET_TAG [7, 7, 7] (by decide)
    ⟨_, _, _, rfl, by decide, rfl, rfl, rfl, by decide⟩ rfl⟩

theorem field_wf_clear (K : Config) : field_wf (mem_clear_field K) := by
  simp [field_wf, mem_clear_field]

theorem field_wf_at (K : Config) (area : List Byte) (c : Nat)
    (hfit : c + 1 + data_length area c ≤ area.length) : field_wf (field_at K area c) := by
  have hl := (field_at_take K area c hfit).1
  simp only [field_wf, field_at, List.length_append, List.length_replicate, hl]
  omega

theorem field_loop_wf (K : Config) (area : List Byte) (m : Nat) (slots : List Bool)
    (i c : Nat) (f g : ipmi_fru_field_t) (rv : Ret) (hf : field_wf f)
    (h : field_loop K area m slots i c f = some (rv, g)) : field_wf g := by
  induction slots generalizing i c f with
  | nil =>
    simp only [field_loop, Option.some.injEq, Prod.mk.injEq] at h
    rw [← h.2]
    exact hf
  | cons p ps ih =>
    have hclr : field_wf (if p then mem_clear_field K else f) := by
      cases p
      · exact hf
      · exact field_wf_clear K
    by_cases hc : c < area.length
    · by_cases ht : terminates area m i c
      · rw [field_loop_term K area m _ _ i c f hc ht] at h
        simp only [Option.some.injEq, Prod.mk.injEq] at h
        rw [← h.2]
        exact hclr
      · by_cases hfit : c + 1 + data_length area c ≤ area.length
        · rw [field_loop_step K area m _ _ i c f hc ht hfit] at h
          refine ih _ _ _ ?_ h
          cases p
          · exact hf
          · exact field_wf_at K area c hfit
        · rw [field_loop_fail K area m _ _ i c f hc ht (by omega)] at h
          simp only [Option.some.injEq, Prod.mk.injEq] at h
          rw [← h.2]
          exact hclr
    · rw [field_loop_oob K area m _ _ i c f (by omega)] at h
      cases h

theorem copy_out_spec (buf : List Byte) (vpd : ipmi_fru_field_t) (hwf : field_wf vpd) :
    (copy_out buf vpd).length = buf.length ∧
    (∀ i, i < min buf.length vpd.type_length_field_length →
      (copy_out buf vpd)[i]? = vpd.type_length_field[i]?) ∧
    (∀ i, min buf.length vpd.type_length_field_length ≤ i →
      (copy_out buf vpd)[i]? = buf[i]?) := by
  have hm : (if buf.length < vpd.type_length_field_length then buf.length
      else vpd.type_length_field_length) = min buf.length vpd.type_length_field_length := by
    by_cases h : buf.length < vpd.type_length_field_length
    · rw [if_pos h]; omega
    · rw [if_neg h]; omega
  unfold field_wf at hwf
  have hlt : (List.take (min buf.length vpd.type_length_field_length)
      vpd.type_length_field).length = min buf.length vpd.type_length_field_length := by
    rw [List.length_take]
    omega
  simp only [copy_out, memcpy, hm]
  refine ⟨?_, ?_, ?_⟩
  · rw [List.length_append, hlt, List.length_drop]
    omega
  · intro i hi
    rw [List.getElem?_append_left (by omega), List.getElem?_take_of_lt hi]
  · intro i hi
    rw [List.getElem?_append_right (by omega), hlt, List.getElem?_drop]
    congr 1
    omega

/-- A successful `dfd_get_fru_data` read an area, decoded it with success and copied
the field out. -/
theorem get_fru_data_ok_inv (K : Config) (sys : Sys) (type : dfd_dev_info_type)
    (buf out : List Byte) (h : dfd_get_fru_data K sys type buf = some (Ret.ok, out)) :
    buf ≠ [] ∧ ∃ (area : List Byte) (vpd : ipmi_fru_field_t) (lc : Option Byte),
      area_read K sys product_offset area ∧
      ipmi_fru_product_info_area K area (dfd_set_fru_product_info K type).2
        (mem_clear_field K) = some (Ret.ok, vpd, lc) ∧
      out = copy_out buf vpd := by
  have h0 := h
  unfold dfd_get_fru_data dfd_get_frue2prom_info at h
  by_cases hlen : buf.length = 0
  · simp [hlen] at h
  have hb : buf ≠ [] := by simpa using hlen
  refine ⟨hb, ?_⟩
  cases h1 : sys.dfd_ko_i2c_read 0 sizeof_fru_common_header_t with
  | none => simp [hlen, h1] at h
  | some info =>
    cases h2 : ipmi_validate_common_hdr K info.val with
    | none => simp [hlen, h1, h2] at h
    | some rc =>
      by_cases hrc : rc = Ret.ok
      · subst hrc
        cases h3 : sys.dfd_ko_i2c_read (product_offset info.val * IPMI_EIGHT_BYTES + 1) 1 with
        | none => simp [hlen, h1, h2, h3] at h
        | some fru_len =>
          cases h4 : sys.kmalloc ((fru_len.val.headD 0).val * IPMI_EIGHT_BYTES) with
          | false =>
            simp only [hlen, h1, h2, h3, h4, if_false, if_true, ne_eq, not_true_eq_false, not_false_eq_true, Option.some.injEq, Prod.mk.injEq, reduceCtorEq, false_and] at h
          | true =>
            cases h5 : sys.dfd_ko_i2c_read (product_offset info.val * IPMI_EIGHT_BYTES)
                ((fru_len.val.headD 0).val * IPMI_EIGHT_BYTES) with
            | none =>
              simp only [hlen, h1, h2, h3, h4, h5, Bool.true_eq_false, if_false, if_true, ne_eq, not_true_eq_false, not_false_eq_true, Option.some.injEq, Prod.mk.injEq, reduceCtorEq, false_and] at h
            | some fru_data =>
              have hr : area_read K sys product_offset fru_data.val :=
                ⟨info, fru_len, fru_data, h1, h2, h3, h4, h5, rfl⟩
              rw [get_fru_data_of_read K sys type buf _ hb hr] at h0
              by_cases hsel : (dfd_set_fru_product_info K type).1 = Ret.ok
              · simp only [hsel, ne_eq, not_true_eq_false, if_false] at h0
                cases hd : ipmi_fru_product_info_area K fru_data.val
                    (dfd_set_fru_product_info K type).2 (mem_clear_field K) with
                | none => simp [hd] at h0
                | some r =>
                  obtain ⟨ret, vpd, lc⟩ := r
                  by_cases hret : ret = Ret.ok
                  · subst hret
                    simp only [hd, ne_eq, not_true_eq_false, if_false, Option.some.injEq,
                      Prod.mk.injEq, true_and] at h0
                    exact ⟨fru_data.val, vpd, lc, hr, hd, h0.symm⟩
                  · simp [hd, hret] at h0
              · simp [hsel] at h0
      · simp [hlen, h1, h2, hrc] at h

/-- A successful `dfd_get_fru_board_data` read an area, decoded it with success and
copied the field out. -/
theorem get_fru_board_data_ok_inv (K : Config) (sys : Sys) (type : dfd_dev_info_type)
    (buf out : List Byte) (h : dfd_get_fru_board_data K sys type buf = some (Ret.ok, out)) :
    buf ≠ [] ∧ ∃ (area : List Byte) (vpd : ipmi_fru_field_t)
        (lc : Option Byte × Option (List Byte)),
      area_read K sys board_offset area ∧
      ipmi_fru_board_info_area K area (dfd_set_fru_board_info K type).2
        (mem_clear_field K) = some (Ret.ok, vpd, lc) ∧
      out = copy_out buf vpd := by
  have h0 := h
  unfold dfd_get_fru_board_data dfd_get_frue2prom_info at h
  by_cases hlen : buf.length = 0
  · simp [hlen] at h
  have hb : buf ≠ [] := by simpa using hlen
  refine ⟨hb, ?_⟩
  cases h1 : sys.dfd_ko_i2c_read 0 sizeof_fru_common_header_t with
  | none => simp [hlen, h1] at h
  | some info =>
    cases h2 : ipmi_validate_common_hdr K info.val with
    | none => simp [hlen, h1, h2] at h
    | some rc =>
      by_cases hrc : rc = Ret.ok
      · subst hrc
        cases h3 : sys.dfd_ko_i2c_read (board_offset info.val * IPMI_EIGHT_BYTES + 1) 1 with
        | none => simp [hlen, h1, h2, h3] at h
        | some fru_len =>
          cases h4 : sys.kmalloc ((fru_len.val.headD 0).val * IPMI_EIGHT_BYTES) with
          | false =>
            simp only [hlen, h1, h2, h3, h4, if_false, if_true, ne_eq, not_true_eq_false, not_false_eq_true, Option.some.injEq, Prod.mk.injEq, reduceCtorEq, false_and] at h
          | true =>
            cases h5 : sys.dfd_ko_i2c_read (board_offset info.val * IPMI_EIGHT_BYTES)
                ((fru_len.val.headD 0).val * IPMI_EIGHT_BYTES) with
            | none =>
              simp only [hlen, h1, h2, h3, h4, h5, Bool.true_eq_false, if_false, if_true, ne_eq, not_true_eq_false, not_false_eq_true, Option.some.injEq, Prod.mk.injEq, reduceCtorEq, false_and] at h
            | some fru_data =>
              have hr : area_read K sys board_offset fru_data.val :=
                ⟨info, fru_len, fru_data, h1, h2, h3, h4, h5, rfl⟩
              rw [get_fru_board_data_of_read K sys type buf _ hb hr] at h0
              by_cases hsel : (dfd_set_fru_board_info K type).1 = Ret.ok
              · simp only [hsel, ne_eq, not_true_eq_false, if_false] at h0
                cases hd : ipmi_fru_board_info_area K fru_data.val
                    (dfd_set_fru_board_info K type).2 (mem_clear_field K) with
                | none => simp [hd] at h0
                | some r =>
                  obtain ⟨ret, vpd, lc⟩ := r
                  by_cases hret : ret = Ret.ok
                  · subst hret
                    simp only [hd, ne_eq, not_true_eq_false, if_false, Option.some.injEq,
                      Prod.mk.injEq, true_and] at h0
                    exact ⟨fru_data.val, vpd, lc, hr, hd, h0.symm⟩
                  · simp [hd, hret] at h0
              · simp [hsel] at h0
      · simp [hlen, h1, h2, hrc] at h

/-- C10. Every extraction that returns `0` had a buffer of non-zero length, read an
area and decoded from it a field `vpd` of some length `L`; with `m = min(buf_len, L)`
the buffer after the call has its length unchanged, its bytes `0 .. m-1` are the first
`m` bytes of the field, and every byte at an index `≥ m` is the byte that was there
before. -/
theorem C10_output_truncation (K : Config) (sys : Sys) (type : dfd_dev_info_type)
    (buf out : List Byte) :
    (dfd_get_fru_data K sys type buf = some (Ret.ok, out) →
      0 < buf.length ∧
      ∃ (area : List Byte) (vpd : ipmi_fru_field_t) (lc : Option Byte),
        area_read K sys product_offset area ∧
        ipmi_fru_product_info_area K area (dfd_set_fru_product_info K type).2
          (mem_clear_field K) = some (Ret.ok, vpd, lc) ∧
        vpd.type_length_field_length ≤ vpd.type_length_field.length ∧
        out.length = buf.length ∧
        (∀ i, i < min buf.length vpd.type_length_field_length →
          out[i]? = vpd.type_length_field[i]?) ∧
        (∀ i, min buf.length vpd.type_length_field_length ≤ i → out[i]? = buf[i]?)) ∧
    (dfd_get_fru_board_data K sys type buf = some (Ret.ok, out) →
      0 < buf.length ∧
      ∃ (area : List Byte) (vpd : ipmi_fru_field_t) (lc : Option Byte × Option (List Byte)),
        area_read K sys board_offset area ∧
        ipmi_fru_board_info_area K area (dfd_set_fru_board_info K type).2
          (mem_clear_field K) = some (Ret.ok, vpd, lc) ∧
        vpd.type_length_field_length ≤ vpd.type_length_field.length ∧
        out.length = buf.length ∧
        (∀ i, i < min buf.length vpd.type_length_field_length →
          out[i]? = vpd.type_length_field[i]?) ∧
        (∀ i, min buf.length vpd.type_length_field_length ≤ i → out[i]? = buf[i]?)) := by
  constructor
  · intro h
    obtain ⟨hb, area, vpd, lc, hr, hd, ho⟩ := get_fru_data_ok_inv K sys type buf out h
    have hwf : field_wf vpd :=
      field_loop_wf K area _ _ _ _ _ _ _ (field_wf_clear K)
        (product_area_ok_inv K area _ _ _ _ hd).2
    obtain ⟨c1, c2, c3⟩ := copy_out_spec buf vpd hwf
    subst ho
    exact ⟨List.length_pos.mpr hb, area, vpd, lc, hr, hd, hwf, c1, c2, c3⟩
  · intro h
    obtain ⟨hb, area, vpd, lc, hr, hd, ho⟩ := get_fru_board_data_ok_inv K sys type buf out h
    have hwf : field_wf vpd :=
      field_loop_wf K area _ _ _ _ _ _ _ (field_wf_clear K)
        (board_area_ok_inv K area _ _ _ _ hd).2
    obtain ⟨c1, c2, c3⟩ := copy_out_spec buf vpd hwf
    subst ho
    exact ⟨List.length_pos.mpr hb, area, vpd, lc, hr, hd, hwf, c1, c2, c3⟩

set_option maxRecDepth 100000 in
theorem C10_output_truncation_witness :
    (0 < ([7, 7, 7] : List Byte).length ∧
      ∃ (area : List Byte) (vpd : ipmi_fru_field_t) (lc : Option Byte),
        area_read example_config (eeprom example_device) product_offset area ∧
        ipmi_fru_product_info_area example_config area
          (dfd_set_fru_product_info example_config dfd_dev_info_type.VENDOR).2
          (mem_clear_field example_config) = some (Ret.ok, vpd, lc) ∧
        vpd.type_length_field_length ≤ vpd.type_length_field.length ∧
        ([0x4D, 0x69, 0x63] : List Byte).length = ([7, 7, 7] : List Byte).length ∧
        (∀ i, i < min ([7, 7, 7] : List Byte).length vpd.type_length_field_length →
          ([0x4D, 0x69, 0x63] : List Byte)[i]? = vpd.type_length_field[i]?) ∧
        (∀ i, min ([7, 7, 7] : List Byte).length vpd.type_length_field_length ≤ i →
          ([0x4D, 0x69, 0x63] : List Byte)[i]? = ([7, 7, 7] : List Byte)[i]?)) ∧
    (0 < ([7, 7, 7, 7] : List Byte).length ∧
      ∃ (area : List Byte) (vpd : ipmi_fru_field_t) (lc : Option Byte × Option (List Byte)),
        area_read example_config (eeprom example_device) board_offset area ∧
        ipmi_fru_board_info_area example_config area
          (dfd_set_fru_board_info example_config dfd_dev_info_type.SN).2
          (mem_clear_field example_config) = some (Ret.ok, vpd, lc) ∧
        vpd.type_length_field_length ≤ vpd.type_length_field.length ∧
        ([0x53, 0x31, 7, 7] : List Byte).length = ([7, 7, 7, 7] : List Byte).length ∧
        (∀ i, i < min ([7, 7, 7, 7] : List Byte).length vpd.type_length_field_length →
          ([0x53, 0x31, 7, 7] : List Byte)[i]? = vpd.type_length_field[i]?) ∧
        (∀ i, min ([7, 7, 7, 7] : List Byte).length vpd.type_length_field_length ≤ i →
          ([0x53, 0x31, 7, 7] : List Byte)[i]? = ([7, 7, 7, 7] : List Byte)[i]?)) :=
  ⟨(C10_output_truncation example_config (eeprom example_device) dfd_dev_info_type.VENDOR
      [7, 7, 7] [0x4D, 0x69, 0x63]).1 (by decide),
   (C10_output_truncation example_config (eeprom example_device) dfd_dev_info_type.SN
      [7, 7, 7, 7] [0x53, 0x31, 7, 7]).2 (by decide)⟩

/-! ## Claims on the return value, the scenario and the selectors -/

set_option maxRecDepth 100000 in
/-- C11, as stated, fails: extracting the vendor "Micas" (5 bytes) of `example_device`
into a 3-byte buffer writes 3 bytes and returns `0`, not `3`. -/
theorem C11_reported_count_counterexample :
    dfd_get_fru_data example_config (eeprom example_device) dfd_dev_info_type.VENDOR
        [7, 7, 7] = some (Ret.ok, [0x4D, 0x69, 0x63]) ∧
    (field_at example_config example_product_area 3).type_length_field_length = 5 ∧
    Ret.nonneg_value Ret.ok ≠ some (min ([7, 7, 7] : List Byte).length 5) := by
  decide

/-- C11, amended. An extraction that succeeds returns `0`, whatever number
`min(buf_len, L)` of bytes of the decoded field (of length `L`) it copied to the
buffer; the return value is that number only when the decoded field is empty. -/
theorem C11_reported_count_amended (K : Config) (sys : Sys) (type : dfd_dev_info_type)
    (buf out : List Byte) (r : Ret) :
    (dfd_get_fru_data K sys type buf = some (r, out) → r = Ret.ok →
      Ret.nonneg_value r = some 0 ∧
      ∃ (area : List Byte) (vpd : ipmi_fru_field_t) (lc : Option Byte),
        area_read K sys product_offset area ∧
        ipmi_fru_product_info_area K area (dfd_set_fru_product_info K type).2
          (mem_clear_field K) = some (Ret.ok, vpd, lc) ∧
        out = copy_out buf vpd ∧
        (Ret.nonneg_value r = some (min buf.length vpd.type_length_field_length) ↔
          vpd.type_length_field_length = 0)) ∧
    (dfd_get_fru_board_data K sys type buf = some (r, out) → r = Ret.ok →
      Ret.nonneg_value r = some 0 ∧
      ∃ (area : List Byte) (vpd : ipmi_fru_field_t) (lc : Option Byte × Option (List Byte)),
        area_read K sys board_offset area ∧
        ipmi_fru_board_info_area K area (dfd_set_fru_board_info K type).2
          (mem_clear_field K) = some (Ret.ok, vpd, lc) ∧
        out = copy_out buf vpd ∧
        (Ret.nonneg_value r = some (min buf.length vpd.type_length_field_length) ↔
          vpd.type_length_field_length = 0)) := by
  constructor
  · intro h hr
    subst hr
    obtain ⟨hb, area, vpd, lc, hrd, hd, ho⟩ := get_fru_data_ok_inv K sys type buf out h
    have hpos : 0 < buf.length := List.length_pos.mpr hb
    refine ⟨rfl, area, vpd, lc, hrd, hd, ho, ?_⟩
    simp only [Ret.nonneg_value, Option.some.injEq]
    omega
  · intro h hr
    subst hr
    obtain ⟨hb, area, vpd, lc, hrd, hd, ho⟩ := get_fru_board_data_ok_inv K sys type buf out h
    have hpos : 0 < buf.length := List.length_pos.mpr hb
    refine ⟨rfl, area, vpd, lc, hrd, hd, ho, ?_⟩
    simp only [Ret.nonneg_value, Option.some.injEq]
    omega

set_option maxRecDepth 100000 in
theorem C11_reported_count_amended_witness :
    Ret.nonneg_value Ret.ok = some 0 ∧
    ∃ (area : List Byte) (vpd : ipmi_fru_field_t) (lc : Option Byte),
      area_read example_config (eeprom example_device) product_offset area ∧
      ipmi_fru_product_info_area example_config area
        (dfd_set_fru_product_info example_config dfd_dev_info_type.VENDOR).2
        (mem_clear_field example_config) = some (Ret.ok, vpd, lc) ∧
      ([0x4D, 0x69, 0x63] : List Byte) = copy_out [7, 7, 7] vpd ∧
      (Ret.nonneg_value Ret.ok =
          some (min ([7, 7, 7] : List Byte).length vpd.type_length_field_length) ↔
        vpd.type_length_field_length = 0) :=
  (C11_reported_count_amended example_config (eeprom example_device)
    dfd_dev_info_type.VENDOR [7, 7, 7] [0x4D, 0x69, 0x63] Ret.ok).1 (by decide) rfl

theorem validate_eq (K : Config) (fru_data : List Byte) (h : 8 ≤ fru_data.length) :
    ipmi_validate_common_hdr K fru_data =
      if fru_data[0]? = some (1 : Byte) ∧ bsum (fru_data.take 8) % 256 = 0 then some Ret.ok
      else some Ret.type_err := by
  have hne : fru_data.take 8 ≠ [] := by
    intro hn
    have := congrArg List.length hn
    rw [List.length_take, List.length_nil] at this
    omega
  have h0 : (fru_data.take 8)[0]? = fru_data[0]? := by
    rw [List.getElem?_take_of_lt (by decide)]
  unfold ipmi_validate_common_hdr
  simp only [sizeof_fru_common_header_t, ge_iff_le, h, if_true]
  rw [verify_eq K _ hne, h0]
  by_cases hc : fru_data[0]? = some (1 : Byte) ∧ bsum (List.take 8 fru_data) % 256 = 0
  · simp [hc]
  · simp [hc]

theorem validate_some (K : Config) (fru_data : List Byte) :
    ∃ r, ipmi_validate_common_hdr K fru_data = some r := by
  by_cases h : 8 ≤ fru_data.length
  · rw [validate_eq K fru_data h]
    by_cases hc : fru_data[0]? = some (1 : Byte) ∧ bsum (List.take 8 fru_data) % 256 = 0
    · exact ⟨Ret.ok, by simp [hc]⟩
    · exact ⟨Ret.type_err, by simp [hc]⟩
  · refine ⟨Ret.minus_one, ?_⟩
    unfold ipmi_validate_common_hdr
    simp only [sizeof_fru_common_header_t, ge_iff_le, h, if_false]

theorem frue2prom_info_some (K : Config) (sys : Sys) :
    ∃ r info, dfd_get_frue2prom_info K sys = some (r, info) := by
  unfold dfd_get_frue2prom_info
  cases h1 : sys.dfd_ko_i2c_read 0 sizeof_fru_common_header_t with
  | none => exact ⟨Ret.io_err, [], rfl⟩
  | some info =>
    obtain ⟨rc, hrc⟩ := validate_some K info.val
    simp only [hrc]
    by_cases h : rc = Ret.ok
    · exact ⟨Ret.ok, info.val, by simp [h]⟩
    · exact ⟨Ret.type_err, info.val, by simp [h]⟩

/-- An extraction of the product area whose selector fails returns an error and
leaves the buffer as it was. -/
theorem get_fru_data_unsupported (K : Config) (sys : Sys) (type : dfd_dev_info_type)
    (buf : List Byte) (hsel : (dfd_set_fru_product_info K type).1 ≠ Ret.ok) :
    ∃ r, dfd_get_fru_data K sys type buf = some (r, buf) ∧ r ≠ Ret.ok := by
  unfold dfd_get_fru_data
  by_cases hlen : buf.length = 0
  · exact ⟨Ret.invalid_value, by simp [hlen], by decide⟩
  obtain ⟨r0, info, h0⟩ := frue2prom_info_some K sys
  simp only [hlen, if_false, h0]
  by_cases hr0 : r0 = Ret.ok
  · subst hr0
    simp only [ne_eq, not_true_eq_false, if_false]
    cases h3 : sys.dfd_ko_i2c_read (product_offset info * IPMI_EIGHT_BYTES + 1) 1 with
    | none => exact ⟨Ret.dev_fail, rfl, by decide⟩
    | some fru_len =>
      simp only
      cases h4 : sys.kmalloc ((fru_len.val.headD 0).val * IPMI_EIGHT_BYTES) with
      | false => exact ⟨Ret.no_memory, by simp only [if_true], by decide⟩
      | true =>
        simp only [Bool.true_eq_false, if_false]
        cases h5 : sys.dfd_ko_i2c_read (product_offset info * IPMI_EIGHT_BYTES)
            ((fru_len.val.headD 0).val * IPMI_EIGHT_BYTES) with
        | none => exact ⟨Ret.io_err, rfl, by decide⟩
        | some fru_data =>
          simp only [ne_eq, hsel, not_false_eq_true, if_true]
          exact ⟨_, rfl, hsel⟩
  · simp only [ne_eq, hr0, not_false_eq_true, if_true]
    exact ⟨r0, rfl, hr0⟩

/-- An extraction of the board area whose selector fails returns an error and leaves
the buffer as it was. -/
theorem get_fru_board_data_unsupported (K : Config) (sys : Sys) (type : dfd_dev_info_type)
    (buf : List Byte) (hsel : (dfd_set_fru_board_info K type).1 ≠ Ret.ok) :
    ∃ r, dfd_get_fru_board_data K sys type buf = some (r, buf) ∧ r ≠ Ret.ok := by
  unfold dfd_get_fru_board_data
  by_cases hlen : buf.length = 0
  · exact ⟨Ret.invalid_value, by simp [hlen], by decide⟩
  obtain ⟨r0, info, h0⟩ := frue2prom_info_some K sys
  simp only [hlen, if_false, h0]
  by_cases hr0 : r0 = Ret.ok
  · subst hr0
    simp only [ne_eq, not_true_eq_false, if_false]
    cases h3 : sys.dfd_ko_i2c_read (board_offset info * IPMI_EIGHT_BYTES + 1) 1 with
    | none => exact ⟨Ret.dev_fail, rfl, by decide⟩
    | some fru_len =>
      simp only
      cases h4 : sys.kmalloc ((fru_len.val.headD 0).val * IPMI_EIGHT_BYTES) with
      | false => exact ⟨Ret.no_memory, by simp only [if_true], by decide⟩
      | true =>
        simp only [Bool.true_eq_false, if_false]
        cases h5 : sys.dfd_ko_i2c_read (board_offset info * IPMI_EIGHT_BYTES)
            ((fru_len.val.headD 0).val * IPMI_EIGHT_BYTES) with
        | none => exact ⟨Ret.io_err, rfl, by decide⟩
        | some fru_data =>
          simp only [ne_eq, hsel, not_false_eq_true, if_true]
          exact ⟨_, rfl, hsel⟩
  · simp only [ne_eq, hr0, not_false_eq_true, if_true]
    exact ⟨r0, rfl, hr0⟩

theorem wire_single (n k : Nat) (hk : k < n) :
    (wire n k).length = n ∧ ∀ j, (wire n k)[j]? = some true ↔ j = k := by
  refine ⟨by simp [wire], fun j => ?_⟩
  by_cases hj : j < n
  · rw [wire_getElem? n k j hj]
    simp only [Option.some.injEq, decide_eq_true_eq]
    exact ⟨fun h => h.symm, fun h => h.symm⟩
  · have hlen : (wire n k).length ≤ j := by simp [wire]; omega
    rw [List.getElem?_eq_none hlen]
    constructor
    · intro h; cases h
    · intro h; omega

/-- C13. `dfd_set_fru_product_info` returns `0` exactly for the seven kinds SN, NAME,
DEV_TYPE, HW_INFO, VENDOR, PART_NUMBER, ASSET_TAG and `dfd_set_fru_board_info` exactly
for the five kinds SN, NAME, HW_INFO, PART_NUMBER, VENDOR; for every other kind the
selector returns `-1` and the whole extraction returns an error with the buffer
untouched. On success `language_code` (and `mfg_time`) is NULL and exactly one field
pointer of the record is set. -/
theorem C13_field_kind_mapping (K : Config) (type : dfd_dev_info_type) :
    ((dfd_set_fru_product_info K type).1 = Ret.ok ↔
      type ∈ [dfd_dev_info_type.SN, dfd_dev_info_type.NAME, dfd_dev_info_type.DEV_TYPE,
        dfd_dev_info_type.HW_INFO, dfd_dev_info_type.VENDOR, dfd_dev_info_type.PART_NUMBER,
        dfd_dev_info_type.ASSET_TAG]) ∧
    ((dfd_set_fru_board_info K type).1 = Ret.ok ↔
      type ∈ [dfd_dev_info_type.SN, dfd_dev_info_type.NAME, dfd_dev_info_type.HW_INFO,
        dfd_dev_info_type.PART_NUMBER, dfd_dev_info_type.VENDOR]) ∧
    ((dfd_set_fru_product_info K type).1 ≠ Ret.ok →
      (dfd_set_fru_product_info K type).1 = Ret.minus_one ∧
      ∀ (sys : Sys) (buf : List Byte),
        ∃ r, dfd_get_fru_data K sys type buf = some (r, buf) ∧ r ≠ Ret.ok) ∧
    ((dfd_set_fru_board_info K type).1 ≠ Ret.ok →
      (dfd_set_fru_board_info K type).1 = Ret.minus_one ∧
      ∀ (sys : Sys) (buf : List Byte),
        ∃ r, dfd_get_fru_board_data K sys type buf = some (r, buf) ∧ r ≠ Ret.ok) ∧
    ((dfd_set_fru_product_info K type).1 = Ret.ok →
      (dfd_set_fru_product_info K type).2.language_code = false ∧
      (dfd_set_fru_product_info K type).2.fields.length = K.product.field_len ∧
      ∃ k, k < K.product.field_len ∧
        ∀ j, (dfd_set_fru_product_info K type).2.fields[j]? = some true ↔ j = k) ∧
    ((dfd_set_fru_board_info K type).1 = Ret.ok →
      (dfd_set_fru_board_info K type).2.language_code = false ∧
      (dfd_set_fru_board_info K type).2.mfg_time = false ∧
      (dfd_set_fru_board_info K type).2.fields.length = K.board.field_len ∧
      ∃ k, k < K.board.field_len ∧
        ∀ j, (dfd_set_fru_board_info K type).2.fields[j]? = some true ↔ j = k) := by
  refine ⟨?_, ?_, ?_, ?_, ?_, ?_⟩
  · cases type <;> simp [dfd_set_fru_product_info]
  · cases type <;> simp [dfd_set_fru_board_info]
  · intro h
    refine ⟨?_, fun sys buf => get_fru_data_unsupported K sys type buf h⟩
    cases type <;> simp [dfd_set_fru_product_info] at h ⊢
  · intro h
    refine ⟨?_, fun sys buf => get_fru_board_data_unsupported K sys type buf h⟩
    cases type <;> simp [dfd_set_fru_board_info] at h ⊢
  · intro h
    cases type
    case OTHER => simp [dfd_set_fru_product_info] at h
    case SN =>
      exact ⟨rfl, (wire_single _ _ K.product.serial_lt).1, _, K.product.serial_lt,
        (wire_single _ _ K.product.serial_lt).2⟩
    case NAME =>
      exact ⟨rfl, (wire_single _ _ K.product.name_lt).1, _, K.product.name_lt,
        (wire_single _ _ K.product.name_lt).2⟩
    case DEV_TYPE =>
      exact ⟨rfl, (wire_single _ _ K.product.type_lt).1, _, K.product.type_lt,
        (wire_single _ _ K.product.type_lt).2⟩
    case HW_INFO =>
      exact ⟨rfl, (wire_single _ _ K.product.version_lt).1, _, K.product.version_lt,
        (wire_single _ _ K.product.version_lt).2⟩
    case VENDOR =>
      exact ⟨rfl, (wire_single _ _ K.product.manufacturer_lt).1, _,
        K.product.manufacturer_lt, (wire_single _ _ K.product.manufacturer_lt).2⟩
    case PART_NUMBER =>
      exact ⟨rfl, (wire_single _ _ K.product.part_lt).1, _, K.product.part_lt,
        (wire_single _ _ K.product.part_lt).2⟩
    case ASSET_TAG =>
      exact ⟨rfl, (wire_single _ _ K.product.asset_lt).1, _, K.product.asset_lt,
        (wire_single _ _ K.product.asset_lt).2⟩
  · intro h
    cases type
    case OTHER => simp [dfd_set_fru_board_info] at h
    case DEV_TYPE => simp [dfd_set_fru_board_info] at h
    case ASSET_TAG => simp [dfd_set_fru_board_info] at h
    case SN =>
      exact ⟨rfl, rfl, (wire_single _ _ K.board.serial_lt).1, _, K.board.serial_lt,
        (wire_single _ _ K.board.serial_lt).2⟩
    case NAME =>
      exact ⟨rfl, rfl, (wire_single _ _ K.board.name_lt).1, _, K.board.name_lt,
        (wire_single _ _ K.board.name_lt).2⟩
    case HW_INFO =>
      exact ⟨rfl, rfl, (wire_single _ _ K.board.custom_lt).1, _, K.board.custom_lt,
        (wire_single _ _ K.board.custom_lt).2⟩
    case VENDOR =>
      exact ⟨rfl, rfl, (wire_single _ _ K.board.manufacturer_lt).1, _,
        K.board.manufacturer_lt, (wire_single _ _ K.board.manufacturer_lt).2⟩
    case PART_NUMBER =>
      exact ⟨rfl, rfl, (wire_single _ _ K.board.part_lt).1, _, K.board.part_lt,
        (wire_single _ _ K.board.part_lt).2⟩

/-- C14. `ipmi_validate_common_hdr` returns `-1` for every input shorter than 8 bytes;
for an input of at least 8 bytes it returns `0` exactly when `ipmi_verify_fru_data`
accepts the first 8 bytes, that is when byte 0 is `1` and the 8 bytes sum to `0` modulo
256, and the error of the verification otherwise; the result is the result on the
first 8 bytes alone. `dfd_get_frue2prom_info` forwards a failed read and turns a
failed validation of the 8 bytes read into `-DFD_RV_TYPE_ERR`. -/
theorem C14_common_header (K : Config) (fru_data : List Byte) :
    (fru_data.length < 8 → ipmi_validate_common_hdr K fru_data = some Ret.minus_one) ∧
    (8 ≤ fru_data.length →
      (ipmi_validate_common_hdr K fru_data = some Ret.ok ↔
        ipmi_verify_fru_data K (fru_data.take 8) = some Ret.ok) ∧
      (ipmi_validate_common_hdr K fru_data = some Ret.ok ↔
        fru_data[0]? = some (1 : Byte) ∧ bsum (fru_data.take 8) % 256 = 0) ∧
      (ipmi_validate_common_hdr K fru_data ≠ some Ret.ok →
        ipmi_validate_common_hdr K fru_data = some Ret.type_err) ∧
      ipmi_validate_common_hdr K fru_data = ipmi_validate_common_hdr K (fru_data.take 8)) ∧
    (∀ sys : Sys,
      (sys.dfd_ko_i2c_read 0 8 = none →
        dfd_get_frue2prom_info K sys = some (Ret.io_err, [])) ∧
      (∀ info, sys.dfd_ko_i2c_read 0 8 = some info →
        dfd_get_frue2prom_info K sys =
          some (if info.val[0]? = some (1 : Byte) ∧ bsum info.val % 256 = 0 then Ret.ok
                else Ret.type_err, info.val))) := by
  refine ⟨?_, ?_, ?_⟩
  · intro h
    unfold ipmi_validate_common_hdr
    have : ¬ 8 ≤ fru_data.length := by omega
    simp only [sizeof_fru_common_header_t, ge_iff_le, this, if_false]
  · intro h
    have hv := validate_eq K fru_data h
    have hne : fru_data.take 8 ≠ [] := by
      intro hn
      have := congrArg List.length hn
      rw [List.length_take, List.length_nil] at this
      omega
    have h0 : (fru_data.take 8)[0]? = fru_data[0]? := by
      rw [List.getElem?_take_of_lt (by decide)]
    have hlen8 : 8 ≤ (fru_data.take 8).length := by
      rw [List.length_take]
      omega
    have htt : (fru_data.take 8).take 8 = fru_data.take 8 := by
      rw [List.take_take]
      simp
    refine ⟨?_, ?_, ?_, ?_⟩
    · rw [hv, verify_eq K _ hne, h0]
    · rw [hv]
      by_cases hc : fru_data[0]? = some (1 : Byte) ∧ bsum (List.take 8 fru_data) % 256 = 0
      · simp [hc]
      · simp only [hc, if_false, iff_false]
        intro h2
        cases h2
    · rw [hv]
      by_cases hc : fru_data[0]? = some (1 : Byte) ∧ bsum (List.take 8 fru_data) % 256 = 0
      · simp [hc]
      · simp [hc]
    · rw [hv, validate_eq K _ hlen8, htt, h0]
  · intro sys
    constructor
    · intro h
      unfold dfd_get_frue2prom_info
      simp only [sizeof_fru_common_header_t, h]
    · intro info h
      have hl : info.val.length = 8 := info.property
      have htake : info.val.take 8 = info.val := List.take_of_length_le (by omega)
      have hv := validate_eq K info.val (by omega)
      rw [htake] at hv
      unfold dfd_get_frue2prom_info
      by_cases hc : info.val[0]? = some (1 : Byte) ∧ bsum info.val % 256 = 0
      · rw [if_pos hc] at hv
        rw [if_pos hc]
        simp only [sizeof_fru_common_header_t, h, hv, ne_eq, not_true_eq_false, if_false]
      · rw [if_neg hc] at hv
        rw [if_neg hc]
        simp only [sizeof_fru_common_header_t, h, hv, ne_eq, reduceCtorEq, not_false_eq_true,
          if_true]

/-! ## The scenario -/

/-- The logged product extraction returns what `dfd_get_fru_data` returns. -/
theorem get_fru_data_logged_fst (K : Config) (sys : Sys) (type : dfd_dev_info_type)
    (buf : List Byte) :
    (dfd_get_fru_data_logged K sys type buf).1 = dfd_get_fru_data K sys type buf := by
  unfold dfd_get_fru_data_logged dfd_get_fru_data
  by_cases hlen : buf.length = 0
  · simp only [hlen, if_true]
  simp only [hlen, if_false]
  cases h0 : dfd_get_frue2prom_info K sys with
  | none => rfl
  | some r0 =>
    obtain ⟨ret, info⟩ := r0
    by_cases hret : ret = Ret.ok
    · subst hret
      simp only [ne_eq, not_true_eq_false, if_false]
      cases h3 : sys.dfd_ko_i2c_read (product_offset info * IPMI_EIGHT_BYTES + 1) 1 with
      | none => rfl
      | some fru_len =>
        simp only
        cases h4 : sys.kmalloc ((fru_len.val.headD 0).val * IPMI_EIGHT_BYTES) with
        | false => simp only [if_true]
        | true =>
          simp only [Bool.true_eq_false, if_false]
          cases h5 : sys.dfd_ko_i2c_read (product_offset info * IPMI_EIGHT_BYTES)
              ((fru_len.val.headD 0).val * IPMI_EIGHT_BYTES) with
          | none => rfl
          | some fru_data =>
            simp only
            by_cases hsel : (dfd_set_fru_product_info K type).1 = Ret.ok
            · simp only [hsel, ne_eq, not_true_eq_false, if_false]
              cases hd : ipmi_fru_product_info_area K fru_data.val
                  (dfd_set_fru_product_info K type).2 (mem_clear_field K) with
              | none => rfl
              | some r =>
                obtain ⟨ret2, vpd, lc⟩ := r
                by_cases hret2 : ret2 = Ret.ok
                · simp only [hret2, ne_eq, not_true_eq_false, if_false]
                · simp only [ne_eq, hret2, not_false_eq_true, if_true]
            · simp only [ne_eq, hsel, not_false_eq_true, if_true]
    · simp only [ne_eq, hret, not_false_eq_true, if_true]

/-- The logged board extraction returns what `dfd_get_fru_board_data` returns. -/
theorem get_fru_board_data_logged_fst (K : Config) (sys : Sys) (type : dfd_dev_info_type)
    (buf : List Byte) :
    (dfd_get_fru_board_data_logged K sys type buf).1 =
      dfd_get_fru_board_data K sys type buf := by
  unfold dfd_get_fru_board_data_logged dfd_get_fru_board_data
  by_cases hlen : buf.length = 0
  · simp only [hlen, if_true]
  simp only [hlen, if_false]
  cases h0 : dfd_get_frue2prom_info K sys with
  | none => rfl
  | some r0 =>
    obtain ⟨ret, info⟩ := r0
    by_cases hret : ret = Ret.ok
    · subst hret
      simp only [ne_eq, not_true_eq_false, if_false]
      cases h3 : sys.dfd_ko_i2c_read (board_offset info * IPMI_EIGHT_BYTES + 1) 1 with
      | none => rfl
      | some fru_len =>
        simp only
        cases h4 : sys.kmalloc ((fru_len.val.headD 0).val * IPMI_EIGHT_BYTES) with
        | false => simp only [if_true]
        | true =>
          simp only [Bool.true_eq_false, if_false]
          cases h5 : sys.dfd_ko_i2c_read (board_offset info * IPMI_EIGHT_BYTES)
              ((fru_len.val.headD 0).val * IPMI_EIGHT_BYTES) with
          | none => rfl
          | some fru_data =>
            simp only
            by_cases hsel : (dfd_set_fru_board_info K type).1 = Ret.ok
            · simp only [hsel, ne_eq, not_true_eq_false, if_false]
              cases hd : ipmi_fru_board_info_area K fru_data.val
                  (dfd_set_fru_board_info K type).2 (mem_clear_field K) with
              | none => rfl
              | some r =>
                obtain ⟨ret2, vpd, lc⟩ := r
                by_cases hret2 : ret2 = Ret.ok
                · simp only [hret2, ne_eq, not_true_eq_false, if_false]
                · simp only [ne_eq, hret2, not_false_eq_true, if_true]
            · simp only [ne_eq, hsel, not_false_eq_true, if_true]
    · simp only [ne_eq, hret, not_false_eq_true, if_true]

theorem frue2prom_info_ok (K : Config) (sys : Sys)
    (info : { l : List Byte // l.length = sizeof_fru_common_header_t })
    (h1 : sys.dfd_ko_i2c_read 0 sizeof_fru_common_header_t = some info)
    (h2 : ipmi_validate_common_hdr K info.val = some Ret.ok) :
    dfd_get_frue2prom_info K sys = some (Ret.ok, info.val) := by
  unfold dfd_get_frue2prom_info
  simp only [h1, h2, ne_eq, not_true_eq_false, if_false]

set_option maxRecDepth 100000 in
/-- When the allocation of the area buffer fails, the extraction does not reach its
area read: on `example_device` with a failing allocator it makes the two calls
`(0, 8)` and `(25, 1)` of `dfd_ko_i2c_read` and returns `-DFD_RV_NO_MEMORY`. -/
theorem read_sequence_allocation_failure :
    ipmi_validate_common_hdr example_config example_header = some Ret.ok ∧
    (((no_memory_device example_device).dfd_ko_i2c_read 0 8).map Subtype.val =
      some example_header) ∧
    (∀ offset len, ((no_memory_device example_device).dfd_ko_i2c_read offset len).isSome) ∧
    dfd_get_fru_data_logged example_config (no_memory_device example_device)
        dfd_dev_info_type.SN [7, 7, 7, 7] =
      (some (Ret.no_memory, [7, 7, 7, 7]), [(0, 8), (25, 1)]) ∧
    dfd_get_fru_data example_config (no_memory_device example_device)
        dfd_dev_info_type.SN [7, 7, 7, 7] = some (Ret.no_memory, [7, 7, 7, 7]) := by
  refine ⟨by decide, by decide, fun offset len => rfl, by decide, by decide⟩

/-- C15. An extraction with a buffer of non-zero length that performs its three reads
with success (the header read, which validates; the length-byte read; and, the area
buffer being allocated, the area read) calls `dfd_ko_i2c_read` exactly three times,
in this order: `(0, 8)`, `(8*m + 1, 1)` and `(8*m, 8*l)`, with `m` the offset byte of
the requested area in the header and `l` the byte the second read delivered; the
logged extraction returns what the extraction returns. -/
theorem C15_read_sequence (K : Config) (sys : Sys) (type : dfd_dev_info_type)
    (buf : List Byte) (info : { l : List Byte // l.length = 8 }) (hb : buf ≠ [])
    (h1 : sys.dfd_ko_i2c_read 0 8 = some info)
    (h2 : ipmi_validate_common_hdr K info.val = some Ret.ok) :
    (∀ (fru_len : { l : List Byte // l.length = 1 })
        (fru_data : { l : List Byte // l.length = (fru_len.val.headD 0).val * 8 }),
      sys.dfd_ko_i2c_read (product_offset info.val * 8 + 1) 1 = some fru_len →
      sys.kmalloc ((fru_len.val.headD 0).val * 8) = true →
      sys.dfd_ko_i2c_read (product_offset info.val * 8) ((fru_len.val.headD 0).val * 8) =
        some fru_data →
      (dfd_get_fru_data_logged K sys type buf).2 =
        [(0, 8), (8 * product_offset info.val + 1, 1),
         (8 * product_offset info.val, 8 * (fru_len.val.headD 0).val)]) ∧
    (∀ (fru_len : { l : List Byte // l.length = 1 })
        (fru_data : { l : List Byte // l.length = (fru_len.val.headD 0).val * 8 }),
      sys.dfd_ko_i2c_read (board_offset info.val * 8 + 1) 1 = some fru_len →
      sys.kmalloc ((fru_len.val.headD 0).val * 8) = true →
      sys.dfd_ko_i2c_read (board_offset info.val * 8) ((fru_len.val.headD 0).val * 8) =
        some fru_data →
      (dfd_get_fru_board_data_logged K sys type buf).2 =
        [(0, 8), (8 * board_offset info.val + 1, 1),
         (8 * board_offset info.val, 8 * (fru_len.val.headD 0).val)]) ∧
    (dfd_get_fru_data_logged K sys type buf).1 = dfd_get_fru_data K sys type buf ∧
    (dfd_get_fru_board_data_logged K sys type buf).1 =
      dfd_get_fru_board_data K sys type buf := by
  have hlen : buf.length ≠ 0 := by simpa using hb
  have h0 := frue2prom_info_ok K sys info h1 h2
  refine ⟨?_, ?_, get_fru_data_logged_fst K sys type buf,
    get_fru_board_data_logged_fst K sys type buf⟩
  · intro fru_len fru_data h3 h4 h5
    rw [Nat.mul_comm 8 (product_offset info.val), Nat.mul_comm 8 (fru_len.val.headD 0).val]
    unfold dfd_get_fru_data_logged
    simp only [hlen, if_false, h0, ne_eq, not_true_eq_false, IPMI_EIGHT_BYTES, h3, h4, h5,
      Bool.true_eq_false, sizeof_fru_common_header_t]
    by_cases hsel : (dfd_set_fru_product_info K type).1 = Ret.ok
    · simp only [hsel, not_true_eq_false, if_false]
      cases hd : ipmi_fru_product_info_area K fru_data.val
          (dfd_set_fru_product_info K type).2 (mem_clear_field K) with
      | none => rfl
      | some r =>
        obtain ⟨ret2, vpd, lc⟩ := r
        by_cases hret2 : ret2 = Ret.ok
        · simp only [hret2, not_true_eq_false, if_false]
          rfl
        · simp only [hret2, not_false_eq_true, if_true]
          rfl
    · simp only [hsel, not_false_eq_true, if_true]
      rfl
  · intro fru_len fru_data h3 h4 h5
    rw [Nat.mul_comm 8 (board_offset info.val), Nat.mul_comm 8 (fru_len.val.headD 0).val]
    unfold dfd_get_fru_board_data_logged
    simp only [hlen, if_false, h0, ne_eq, not_true_eq_false, IPMI_EIGHT_BYTES, h3, h4, h5,
      Bool.true_eq_false, sizeof_fru_common_header_t]
    by_cases hsel : (dfd_set_fru_board_info K type).1 = Ret.ok
    · simp only [hsel, not_true_eq_false, if_false]
      cases hd : ipmi_fru_board_info_area K fru_data.val
          (dfd_set_fru_board_info K type).2 (mem_clear_field K) with
      | none => rfl
      | some r =>
        obtain ⟨ret2, vpd, lc⟩ := r
        by_cases hret2 : ret2 = Ret.ok
        · simp only [hret2, not_true_eq_false, if_false]
          rfl
        · simp only [hret2, not_false_eq_true, if_true]
          rfl
    · simp only [hsel, not_false_eq_true, if_true]
      rfl

set_option maxRecDepth 100000 in
theorem C15_read_sequence_witness :
    (dfd_get_fru_data_logged example_config (eeprom example_device) dfd_dev_info_type.SN
        [7, 7, 7, 7]).2 = [(0, 8), (25, 1), (24, 24)] ∧
    (dfd_get_fru_board_data_logged example_config (eeprom example_device)
        dfd_dev_info_type.SN [7, 7, 7, 7]).2 = [(0, 8), (9, 1), (8, 16)] :=
  have h := C15_read_sequence example_config (eeprom example_device)
    dfd_dev_info_type.SN [7, 7, 7, 7] ⟨example_header, rfl⟩ (by decide) (by decide)
    (by decide)
  ⟨h.1 ⟨[0x03], rfl⟩ ⟨example_product_area, rfl⟩ (by decide) rfl (by decide),
   h.2.1 ⟨[0x02], rfl⟩ ⟨example_board_area, rfl⟩ (by decide) rfl (by decide)⟩

/-! ## Start offsets and the sentinel as a type/length byte -/

/-- The product decoder on a verified area whose `language_code` pointer is set. -/
theorem product_area_eq_language (K : Config) (area : List Byte) (slots : List Bool)
    (f : ipmi_fru_field_t) (hv : ipmi_verify_fru_data K area = some Ret.ok) :
    ipmi_fru_product_info_area K area ⟨true, slots⟩ f =
      match area[2]? with
      | none => none
      | some b =>
        (field_loop K area K.IPMI_FRU_PRODUCT_AREA_MIN_LEN slots 0 3 f).map
          (fun r => (r.1, r.2, some b)) := by
  have hne : area.length ≠ 0 := by
    have := verify_ok_ne_nil K area hv
    simpa using this
  unfold ipmi_fru_product_info_area
  rw [if_neg hne, hv]
  simp only [ne_eq, not_true_eq_false, if_false, if_true]
  cases area[2]? with
  | none => rfl
  | some b =>
    simp only [Option.map_some']
    cases field_loop K area K.IPMI_FRU_PRODUCT_AREA_MIN_LEN slots 0 3 f <;> rfl

/-- The board decoder on a verified area whose `language_code` and `mfg_time`
pointers are set. -/
theorem board_area_eq_language (K : Config) (area : List Byte) (slots : List Bool)
    (f : ipmi_fru_field_t) (hv : ipmi_verify_fru_data K area = some Ret.ok) :
    ipmi_fru_board_info_area K area ⟨true, true, slots⟩ f =
      match area[2]? with
      | none => none
      | some b =>
        if 6 ≤ area.length then
          (field_loop K area K.IPMI_FRU_BOARD_AREA_MIN_LEN slots 0 6 f).map
            (fun r => (r.1, r.2, some b, some ((area.drop 3).take 3)))
        else none := by
  have hne : area.length ≠ 0 := by
    have := verify_ok_ne_nil K area hv
    simpa using this
  unfold ipmi_fru_board_info_area
  rw [if_neg hne, hv]
  simp only [ne_eq, not_true_eq_false, if_false, if_true, IPMI_FRU_BOARD_INFO_MFG_TIME_LENGTH,
    Nat.reduceAdd]
  cases area[2]? with
  | none => rfl
  | some b =>
    simp only [Option.map_some']
    by_cases h6 : 6 ≤ area.length
    · simp only [h6, if_true]
      cases field_loop K area K.IPMI_FRU_BOARD_AREA_MIN_LEN slots 0 6 f <;> rfl
    · simp only [h6, if_false]

set_option maxRecDepth 100000 in
/-- C16, as stated, fails: slot 0 of `example_product_area` is the field whose
type/length byte stands at offset 3 ("Micas"), not the empty field a type/length byte
at offset 2 (the language code `0x00`) would give; slot 0 of `example_board_area` is
the field at offset 6 ("Mi"), not the one at offset 5. -/
theorem C16_start_offsets_counterexample :
    ipmi_fru_product_info_area example_config example_product_area ⟨false, wire 7 0⟩
        (mem_clear_field example_config) =
      some (Ret.ok, field_at example_config example_product_area 3, none) ∧
    field_at example_config example_product_area 3 ≠
      field_at example_config example_product_area 2 ∧
    ipmi_fru_board_info_area example_config example_board_area ⟨false, false, wire 5 0⟩
        (mem_clear_field example_config) =
      some (Ret.ok, field_at example_config example_board_area 6, none, none) ∧
    field_at example_config example_board_area 6 ≠
      field_at example_config example_board_area 5 := by
  decide

/-- C16, amended. On a verified area the product decoder stores the byte at offset 2
as language code and runs its field loop from cursor 3, so the first type/length byte
decoded (slot 0) is the byte at area offset 3; the board decoder stores the byte at
offset 2 as language code and the bytes at offsets 3 to 5 as manufacture time and
runs its field loop from cursor 6, so its first type/length byte is the byte at area
offset 6. -/
theorem C16_start_offsets_amended (K : Config) (area : List Byte) (p : Bool)
    (ps : List Bool) (f : ipmi_fru_field_t)
    (hv : ipmi_verify_fru_data K area = some Ret.ok) :
    (ipmi_fru_product_info_area K area ⟨false, p :: ps⟩ f =
      (field_loop K area K.IPMI_FRU_PRODUCT_AREA_MIN_LEN (p :: ps) 0 3 f).map
        (fun r => (r.1, r.2, none))) ∧
    (ipmi_fru_product_info_area K area ⟨true, p :: ps⟩ f =
      match area[2]? with
      | none => none
      | some b =>
        (field_loop K area K.IPMI_FRU_PRODUCT_AREA_MIN_LEN (p :: ps) 0 3 f).map
          (fun r => (r.1, r.2, some b))) ∧
    (3 < area.length → ¬ terminates area K.IPMI_FRU_PRODUCT_AREA_MIN_LEN 0 3 →
      3 + 1 + data_length area 3 ≤ area.length →
      field_loop K area K.IPMI_FRU_PRODUCT_AREA_MIN_LEN (p :: ps) 0 3 f =
        field_loop K area K.IPMI_FRU_PRODUCT_AREA_MIN_LEN ps 1 (3 + 1 + data_length area 3)
          (if p then field_at K area 3 else f)) ∧
    (ipmi_fru_board_info_area K area ⟨false, false, p :: ps⟩ f =
      (field_loop K area K.IPMI_FRU_BOARD_AREA_MIN_LEN (p :: ps) 0 6 f).map
        (fun r => (r.1, r.2, none, none))) ∧
    (ipmi_fru_board_info_area K area ⟨true, true, p :: ps⟩ f =
      match area[2]? with
      | none => none
      | some b =>
        if 6 ≤ area.length then
          (field_loop K area K.IPMI_FRU_BOARD_AREA_MIN_LEN (p :: ps) 0 6 f).map
            (fun r => (r.1, r.2, some b, some ((area.drop 3).take 3)))
        else none) ∧
    (6 < area.length → ¬ terminates area K.IPMI_FRU_BOARD_AREA_MIN_LEN 0 6 →
      6 + 1 + data_length area 6 ≤ area.length →
      field_loop K area K.IPMI_FRU_BOARD_AREA_MIN_LEN (p :: ps) 0 6 f =
        field_loop K area K.IPMI_FRU_BOARD_AREA_MIN_LEN ps 1 (6 + 1 + data_length area 6)
          (if p then field_at K area 6 else f)) :=
  ⟨product_area_eq K area _ f hv, product_area_eq_language K area _ f hv,
   fun h1 h2 h3 => field_loop_step K area _ p ps 0 3 f h1 h2 h3,
   board_area_eq K area _ f hv, board_area_eq_language K area _ f hv,
   fun h1 h2 h3 => field_loop_step K area _ p ps 0 6 f h1 h2 h3⟩

set_option maxRecDepth 100000 in
theorem C16_start_offsets_amended_witness :
    field_loop example_config example_product_area
        example_config.IPMI_FRU_PRODUCT_AREA_MIN_LEN (true :: List.replicate 6 false) 0 3
        (mem_clear_field example_config) =
      field_loop example_config example_product_area
        example_config.IPMI_FRU_PRODUCT_AREA_MIN_LEN (List.replicate 6 false) 1
        (3 + 1 + data_length example_product_area 3)
        (if true = true then field_at example_config example_product_area 3
         else mem_clear_field example_config) :=
  (C16_start_offsets_amended example_config example_product_area true
    (List.replicate 6 false) (mem_clear_field example_config) (by decide)).2.2.1
    (by decide) (by decide) (by decide)

/-- C17, as stated, fails: applied to the byte `0xC1` at offset 3 of
`sentinel_first_product_area`, `ipmi_parse_type_length` stores 1, not 0, in
`number_of_data_bytes`, gives the field one data byte (`0x41`), and the loop goes on
at cursor 5, two bytes further, not one. -/
theorem C17_sentinel_type_length_counterexample :
    sentinel_first_product_area[3]? = some (0xC1 : Byte) ∧
    ipmi_parse_type_length example_config sentinel_first_product_area 3
        (some (mem_clear_field example_config)) =
      some (Ret.ok, 1, some (field_at example_config sentinel_first_product_area 3)) ∧
    (field_at example_config sentinel_first_product_area 3).type_length_field_length = 1 ∧
    (field_at example_config sentinel_first_product_area 3).type_length_field.take 1 =
      [0x41] ∧
    decoded_cursors example_config sentinel_first_product_area
      example_config.IPMI_FRU_PRODUCT_AREA_MIN_LEN [true] 0 3 = [5] := by
  decide

/-- C17, amended. Applied to a type/length byte equal to `0xC1`, the type code is 3 and
`ipmi_parse_type_length` stores 1 (`0xC1 & 0x3F`) in `number_of_data_bytes`: it
returns `0` and gives a non-NULL field the one byte that follows when two bytes are
left in the area, and returns `-1` otherwise; on success the loop of the area decoders
goes on two bytes further. -/
theorem C17_sentinel_type_length_amended (K : Config) (area : List Byte) (c : Nat)
    (field : Option ipmi_fru_field_t) (hs : area[c]? = some (0xC1 : Byte)) :
    type_code 0xC1 = 3 ∧
    data_length area c = 1 ∧
    (c + 2 ≤ area.length →
      ipmi_parse_type_length K area c field =
        some (Ret.ok, 1, field.map (fun _ => field_at K area c)) ∧
      (field_at K area c).type_length_field_length = 1 ∧
      (field_at K area c).type_length_field.take 1 = (area.drop (c + 1)).take 1 ∧
      ((area.drop (c + 1)).take 1).length = 1 ∧
      (∀ (m i : Nat) (p : Bool) (ps : List Bool) (f : ipmi_fru_field_t),
        ¬ terminates area m i c →
        field_loop K area m (p :: ps) i c f =
          field_loop K area m ps (i + 1) (c + 2) (if p then field_at K area c else f))) ∧
    (area.length < c + 2 →
      ipmi_parse_type_length K area c field = some (Ret.minus_one, 1, field)) := by
  have hlt : c < area.length := (List.getElem?_eq_some.mp hs).1
  have hd : data_length area c = 1 := by
    rw [data_length_eq area c _ hs]
    decide
  refine ⟨by decide, hd, ?_, ?_⟩
  · intro hfit
    have hfit2 : c + 1 + data_length area c ≤ area.length := by omega
    have ht := field_at_take K area c hfit2
    rw [hd] at ht
    refine ⟨?_, hd, ht.2, ht.1, ?_⟩
    · rw [parse_eq K area c hlt, if_neg (by omega), hd]
    · intro m i p ps f hnt
      rw [field_loop_step K area m p ps i c f hlt hnt hfit2, hd]
  · intro hshort
    rw [parse_eq K area c hlt, if_pos (by omega), hd]

theorem C17_sentinel_type_length_amended_witness :
    type_code 0xC1 = 3 ∧ data_length sentinel_first_product_area 3 = 1 ∧
    ipmi_parse_type_length example_config sentinel_first_product_area 3
        (some (mem_clear_field example_config)) =
      some (Ret.ok, 1, (some (mem_clear_field example_config)).map
        (fun _ => field_at example_config sentinel_first_product_area 3)) :=
  have h := C17_sentinel_type_length_amended example_config sentinel_first_product_area 3
    (some (mem_clear_field example_config)) (by decide)
  ⟨h.1, h.2.1, (h.2.2.1 (by decide)).1⟩

/-! ## Failure propagation -/

/-- The loop on a record with the single slot `k` set, when the slots before `j` are
decoded and the field at slot `j` does not fit into the area. -/
theorem field_loop_abort (K : Config) (area : List Byte) (m n k c0 j : Nat)
    (f : ipmi_fru_field_t) (hj : j < n) (hw : walks area m c0 j)
    (hc : cursor area c0 j < area.length)
    (hnt : ¬ terminates area m j (cursor area c0 j))
    (hfail : cursor area c0 j + 1 + data_length area (cursor area c0 j) > area.length) :
    field_loop K area m (wire n k) 0 c0 f =
      some (Ret.minus_one,
        if k = j then mem_clear_field K else captured K area c0 k j f) := by
  rw [walk_upto K area m n k c0 f j (Nat.le_of_lt hj) hw, wire_drop n k j hj,
    field_loop_fail K area m _ _ j _ _ hc hnt hfail]
  by_cases hkj : k = j
  · simp [hkj]
  · simp [hkj, captured]

/-- C18. On a verified area, with a record whose only set pointer is slot `k`, any
`k`: when the walk decodes the slots before `j` and the field at slot `j` does not fit
into the area, the area decoder returns the `-1` of `ipmi_parse_type_length`, also when
slot `k` lies before `j` and its field is already in `vpd_info`; the extraction then
returns `-1` and leaves the caller's buffer as it was. -/
theorem C18_failure_propagation (K : Config) (area : List Byte) (n k j : Nat)
    (f0 : ipmi_fru_field_t) (hv : ipmi_verify_fru_data K area = some Ret.ok) (hj : j < n) :
    (walks area K.IPMI_FRU_PRODUCT_AREA_MIN_LEN 3 j →
      cursor area 3 j < area.length →
      ¬ terminates area K.IPMI_FRU_PRODUCT_AREA_MIN_LEN j (cursor area 3 j) →
      cursor area 3 j + 1 + data_length area (cursor area 3 j) > area.length →
      ipmi_parse_type_length K area (cursor area 3 j) none =
        some (Ret.minus_one, data_length area (cursor area 3 j), none) ∧
      ipmi_fru_product_info_area K area ⟨false, wire n k⟩ f0 =
        some (Ret.minus_one,
          if k = j then mem_clear_field K else captured K area 3 k j f0, none) ∧
      (∀ (sys : Sys) (type : dfd_dev_info_type) (buf : List Byte), buf ≠ [] →
        area_read K sys product_offset area →
        dfd_set_fru_product_info K type = (Ret.ok, ⟨false, wire n k⟩) →
        dfd_get_fru_data K sys type buf = some (Ret.minus_one, buf))) ∧
    (walks area K.IPMI_FRU_BOARD_AREA_MIN_LEN 6 j →
      cursor area 6 j < area.length →
      ¬ terminates area K.IPMI_FRU_BOARD_AREA_MIN_LEN j (cursor area 6 j) →
      cursor area 6 j + 1 + data_length area (cursor area 6 j) > area.length →
      ipmi_parse_type_length K area (cursor area 6 j) none =
        some (Ret.minus_one, data_length area (cursor area 6 j), none) ∧
      ipmi_fru_board_info_area K area ⟨false, false, wire n k⟩ f0 =
        some (Ret.minus_one,
          if k = j then mem_clear_field K else captured K area 6 k j f0, none, none) ∧
      (∀ (sys : Sys) (type : dfd_dev_info_type) (buf : List Byte), buf ≠ [] →
        area_read K sys board_offset area →
        dfd_set_fru_board_info K type = (Ret.ok, ⟨false, false, wire n k⟩) →
        dfd_get_fru_board_data K sys type buf = some (Ret.minus_one, buf))) := by
  constructor
  · intro hw hc hnt hfail
    have hparse : ipmi_parse_type_length K area (cursor area 3 j) none =
        some (Ret.minus_one, data_length area (cursor area 3 j), none) := by
      rw [parse_eq K area _ hc, if_pos hfail]
    have hdec : ∀ f, ipmi_fru_product_info_area K area ⟨false, wire n k⟩ f =
        some (Ret.minus_one,
          if k = j then mem_clear_field K else captured K area 3 k j f, none) := by
      intro f
      rw [product_area_eq K area _ _ hv, field_loop_abort K area _ n k 3 j f hj hw hc hnt hfail]
      rfl
    refine ⟨hparse, hdec f0, ?_⟩
    intro sys type buf hb hr hsel
    rw [get_fru_data_of_read K sys type buf area hb hr, hsel]
    simp only [ne_eq, not_true_eq_false, if_false, hdec, reduceCtorEq, not_false_eq_true,
      if_true]
  · intro hw hc hnt hfail
    have hparse : ipmi_parse_type_length K area (cursor area 6 j) none =
        some (Ret.minus_one, data_length area (cursor area 6 j), none) := by
      rw [parse_eq K area _ hc, if_pos hfail]
    have hdec : ∀ f, ipmi_fru_board_info_area K area ⟨false, false, wire n k⟩ f =
        some (Ret.minus_one,
          if k = j then mem_clear_field K else captured K area 6 k j f, none, none) := by
      intro f
      rw [board_area_eq K area _ _ hv, field_loop_abort K area _ n k 6 j f hj hw hc hnt hfail]
      rfl
    refine ⟨hparse, hdec f0, ?_⟩
    intro sys type buf hb hr hsel
    rw [get_fru_board_data_of_read K sys type buf area hb hr, hsel]
    simp only [ne_eq, not_true_eq_false, if_false, hdec, reduceCtorEq, not_false_eq_true,
      if_true]

set_option maxRecDepth 100000 in
theorem C18_failure_propagation_witness :
    ipmi_fru_product_info_area example_config truncated_product_area ⟨false, wire 7 0⟩
        (mem_clear_field example_config) =
      some (Ret.minus_one,
        if 0 = 1 then mem_clear_field example_config
        else captured example_config truncated_product_area 3 0 1
          (mem_clear_field example_config), none) ∧
    (captured example_config truncated_product_area 3 0 1
      (mem_clear_field example_config)).type_length_field_length = 1 ∧
    dfd_get_fru_data example_config (eeprom truncated_device) dfd_dev_info_type.VENDOR
        [7, 7, 7] = some (Ret.minus_one, [7, 7, 7]) :=
  have h := (C18_failure_propagation example_config truncated_product_area 7 0 1
    (mem_clear_field example_config) (by decide) (by decide)).1 (by decide) (by decide)
    (by decide) (by decide)
  ⟨h.2.1, by decide,
   h.2.2 (eeprom truncated_device) dfd_dev_info_type.VENDOR [7, 7, 7] (by decide)
    ⟨_, _, _, rfl, by decide, rfl, rfl, rfl, by decide⟩ rfl⟩

/-! ## Cursor invariant -/

theorem cursor_shift (area : List Byte) (c j : Nat) :
    cursor area c (j + 1) = cursor area (c + 1 + data_length area c) j := by
  induction j with
  | zero => rfl
  | succ j ih =>
    show cursor area c (j + 1) + 1 + data_length area (cursor area c (j + 1)) = _
    rw [ih]
    rfl

theorem decoded_cursors_step (K : Config) (area : List Byte) (m : Nat) (p : Bool)
    (ps : List Bool) (i c : Nat) (hc : c < area.length) (ht : ¬ terminates area m i c)
    (hfit : c + 1 + data_length area c ≤ area.length) :
    decoded_cursors K area m (p :: ps) i c =
      (c + 1 + data_length area c) ::
        decoded_cursors K area m ps (i + 1) (c + 1 + data_length area c) := by
  have hget : area[c]? = some (area.get ⟨c, hc⟩) := by simp
  rw [decoded_cursors]
  rw [hget]
  unfold terminates at ht
  rw [hget] at ht
  simp only [Option.some.injEq] at ht
  simp only [IPMI_FRU_SENTINEL_VALUE, ge_iff_le]
  rw [if_neg ht, parse_eq K area c hc, if_neg (by omega)]

theorem decoded_cursors_stop (K : Config) (area : List Byte) (m : Nat) (p : Bool)
    (ps : List Bool) (i c : Nat)
    (h : area.length ≤ c ∨ terminates area m i c ∨
      c + 1 + data_length area c > area.length) :
    decoded_cursors K area m (p :: ps) i c = [] := by
  rw [decoded_cursors]
  by_cases hc : c < area.length
  · have hget : area[c]? = some (area.get ⟨c, hc⟩) := by simp
    rw [hget]
    simp only [IPMI_FRU_SENTINEL_VALUE, ge_iff_le]
    by_cases ht : terminates area m i c
    · have ht2 := ht
      unfold terminates at ht2
      rw [hget] at ht2
      simp only [Option.some.injEq] at ht2
      rw [if_pos ht2]
    · have ht2 := ht
      unfold terminates at ht2
      rw [hget] at ht2
      simp only [Option.some.injEq] at ht2
      rw [if_neg ht2]
      have hfail : c + 1 + data_length area c > area.length := by
        rcases h with h | h | h
        · omega
        · exact absurd h ht
        · exact h
      rw [parse_eq K area c hc, if_pos hfail]
  · rw [List.getElem?_eq_none (by omega)]

/-- The facts about one run of the loop, by induction on the slots that are left. -/
theorem decoded_cursors_spec (K : Config) (area : List Byte) (m : Nat) (slots : List Bool)
    (i c : Nat) :
    (decoded_cursors K area m slots i c).length ≤ slots.length ∧
    (∀ j, j < (decoded_cursors K area m slots i c).length →
      (decoded_cursors K area m slots i c)[j]? = some (cursor area c (j + 1)) ∧
      cursor area c j < area.length ∧ cursor area c (j + 1) ≤ area.length) ∧
    (∀ f, ∃ f2, field_loop K area m slots i c f =
      field_loop K area m (slots.drop (decoded_cursors K area m slots i c).length)
        (i + (decoded_cursors K area m slots i c).length)
        (cursor area c (decoded_cursors K area m slots i c).length) f2) := by
  induction slots generalizing i c with
  | nil =>
    refine ⟨by simp [decoded_cursors], ?_, fun f => ⟨f, rfl⟩⟩
    intro j hj
    simp [decoded_cursors] at hj
  | cons p ps ih =>
    by_cases hgo : c < area.length ∧ ¬ terminates area m i c ∧
        c + 1 + data_length area c ≤ area.length
    · obtain ⟨hc, ht, hfit⟩ := hgo
      obtain ⟨ih1, ih2, ih3⟩ := ih (i + 1) (c + 1 + data_length area c)
      rw [decoded_cursors_step K area m p ps i c hc ht hfit]
      refine ⟨by simp only [List.length_cons]; omega, ?_, ?_⟩
      · intro j hj
        cases j with
        | zero => exact ⟨by rw [List.getElem?_cons_zero]; rfl, hc, hfit⟩
        | succ j =>
          have hj2 : j < (decoded_cursors K area m ps (i + 1)
              (c + 1 + data_length area c)).length := by
            simpa using hj
          obtain ⟨a1, a2, a3⟩ := ih2 j hj2
          rw [cursor_shift area c (j + 1), cursor_shift area c j]
          exact ⟨by rw [List.getElem?_cons_succ]; exact a1, a2, a3⟩
      · intro f
        obtain ⟨f2, hf2⟩ := ih3 (if p then field_at K area c else f)
        refine ⟨f2, ?_⟩
        rw [field_loop_step K area m p ps i c f hc ht hfit, hf2]
        simp only [List.length_cons, List.drop_succ_cons]
        rw [cursor_shift area c, Nat.add_assoc i 1, Nat.add_comm 1]
    · have hstop : area.length ≤ c ∨ terminates area m i c ∨
          c + 1 + data_length area c > area.length := by
        by_cases hc : c < area.length
        · by_cases ht : terminates area m i c
          · exact Or.inr (Or.inl ht)
          · refine Or.inr (Or.inr ?_)
            by_contra hfit
            exact hgo ⟨hc, ht, by omega⟩
        · exact Or.inl (by omega)
      rw [decoded_cursors_stop K area m p ps i c hstop]
      refine ⟨by simp, ?_, fun f => ⟨f, rfl⟩⟩
      intro j hj
      simp at hj

theorem field_loop_rv (K : Config) (area : List Byte) (m : Nat) (slots : List Bool)
    (i c : Nat) (f g : ipmi_fru_field_t) (rv : Ret)
    (h : field_loop K area m slots i c f = some (rv, g)) :
    rv = Ret.ok ∨ rv = Ret.minus_one := by
  induction slots generalizing i c f with
  | nil =>
    simp only [field_loop, Option.some.injEq, Prod.mk.injEq] at h
    exact Or.inl h.1.symm
  | cons p ps ih =>
    by_cases hc : c < area.length
    · by_cases ht : terminates area m i c
      · rw [field_loop_term K area m _ _ i c f hc ht] at h
        simp only [Option.some.injEq, Prod.mk.injEq] at h
        exact Or.inl h.1.symm
      · by_cases hfit : c + 1 + data_length area c ≤ area.length
        · rw [field_loop_step K area m _ _ i c f hc ht hfit] at h
          exact ih _ _ _ h
        · rw [field_loop_fail K area m _ _ i c f hc ht (by omega)] at h
          simp only [Option.some.injEq, Prod.mk.injEq] at h
          exact Or.inr h.1.symm
    · rw [field_loop_oob K area m _ _ i c f (by omega)] at h
      cases h

/-- C19. In the loop of both area decoders (`field_loop`, run with the minimum field
count `m` of the area, from any loop state): the cursor after the `j`-th successful
decode is the cursor before it plus `1 + (area[cursor] & 0x3F)`, so it grows by at
least 1; it is at most the length of the area; the number of decoded fields is at
most the number of slots, after which the loop is left; and the loop returns `0` or
`-1` unless it reads a byte outside the area. -/
theorem C19_cursor_invariant (K : Config) (area : List Byte) (m : Nat) (slots : List Bool)
    (i c : Nat) :
    (decoded_cursors K area m slots i c).length ≤ slots.length ∧
    (∀ j, j < (decoded_cursors K area m slots i c).length →
      (decoded_cursors K area m slots i c)[j]? =
        some (cursor area c j + 1 + data_length area (cursor area c j)) ∧
      cursor area c j + 1 ≤ cursor area c (j + 1) ∧
      cursor area c j < area.length ∧
      cursor area c (j + 1) ≤ area.length) ∧
    (∀ x, x ∈ decoded_cursors K area m slots i c → x ≤ area.length) ∧
    (∀ f, ∃ f2, field_loop K area m slots i c f =
      field_loop K area m (slots.drop (decoded_cursors K area m slots i c).length)
        (i + (decoded_cursors K area m slots i c).length)
        (cursor area c (decoded_cursors K area m slots i c).length) f2) ∧
    (∀ f, field_loop K area m slots i c f = none ∨
      ∃ rv g, field_loop K area m slots i c f = some (rv, g) ∧
        (rv = Ret.ok ∨ rv = Ret.minus_one)) := by
  obtain ⟨h1, h2, h3⟩ := decoded_cursors_spec K area m slots i c
  refine ⟨h1, ?_, ?_, h3, ?_⟩
  · intro j hj
    obtain ⟨a1, a2, a3⟩ := h2 j hj
    refine ⟨a1, ?_, a2, a3⟩
    show cursor area c j + 1 ≤ cursor area c j + 1 + data_length area (cursor area c j)
    omega
  · intro x hx
    obtain ⟨j, hj, hxj⟩ := List.getElem_of_mem hx
    obtain ⟨a1, _, a3⟩ := h2 j hj
    rw [List.getElem?_eq_getElem hj, hxj] at a1
    simp only [Option.some.injEq] at a1
    rw [a1]
    exact a3
  · intro f
    cases h : field_loop K area m slots i c f with
    | none => exact Or.inl rfl
    | some r =>
      obtain ⟨rv, g⟩ := r
      exact Or.inr ⟨rv, g, rfl, field_loop_rv K area m slots i c f g rv h⟩

/-- The walk of `example_product_area` with the serial number requested: five fields
are decoded, with the cursors 9, 14, 15, 16 and 21 after them. -/
theorem example_decoded_cursors :
    decoded_cursors example_config example_product_area
      example_config.IPMI_FRU_PRODUCT_AREA_MIN_LEN (wire 7 4) 0 3 = [9, 14, 15, 16, 21] := by
  decide

/-! ## Zero-length area -/

/-- C20. For a buffer of non-zero length, a header that is read and validates, a
length byte that is read and is 0, an allocation of 0 bytes that succeeds and an area
read that succeeds, with a kind the selector supports: the area buffer is empty, the
area decoder returns `-DFD_RV_INVALID_VALUE` and so does the extraction, which leaves
the caller's buffer as it was. -/
theorem C20_zero_length_area (K : Config) (sys : Sys) (type : dfd_dev_info_type)
    (buf : List Byte) (info : { l : List Byte // l.length = 8 }) (hb : buf ≠ [])
    (h1 : sys.dfd_ko_i2c_read 0 8 = some info)
    (h2 : ipmi_validate_common_hdr K info.val = some Ret.ok) :
    (∀ (fru_len : { l : List Byte // l.length = 1 })
        (fru_data : { l : List Byte // l.length = (fru_len.val.headD 0).val * 8 }),
      sys.dfd_ko_i2c_read (product_offset info.val * 8 + 1) 1 = some fru_len →
      (fru_len.val.headD 0).val = 0 →
      sys.kmalloc ((fru_len.val.headD 0).val * 8) = true →
      sys.dfd_ko_i2c_read (product_offset info.val * 8) ((fru_len.val.headD 0).val * 8) =
        some fru_data →
      (dfd_set_fru_product_info K type).1 = Ret.ok →
      fru_data.val = [] ∧
      ipmi_fru_product_info_area K fru_data.val (dfd_set_fru_product_info K type).2
          (mem_clear_field K) = some (Ret.invalid_value, mem_clear_field K, none) ∧
      dfd_get_fru_data K sys type buf = some (Ret.invalid_value, buf)) ∧
    (∀ (fru_len : { l : List Byte // l.length = 1 })
        (fru_data : { l : List Byte // l.length = (fru_len.val.headD 0).val * 8 }),
      sys.dfd_ko_i2c_read (board_offset info.val * 8 + 1) 1 = some fru_len →
      (fru_len.val.headD 0).val = 0 →
      sys.kmalloc ((fru_len.val.headD 0).val * 8) = true →
      sys.dfd_ko_i2c_read (board_offset info.val * 8) ((fru_len.val.headD 0).val * 8) =
        some fru_data →
      (dfd_set_fru_board_info K type).1 = Ret.ok →
      fru_data.val = [] ∧
      ipmi_fru_board_info_area K fru_data.val (dfd_set_fru_board_info K type).2
          (mem_clear_field K) = some (Ret.invalid_value, mem_clear_field K, none, none) ∧
      dfd_get_fru_board_data K sys type buf = some (Ret.invalid_value, buf)) := by
  constructor
  · intro fru_len fru_data h3 hz h4 h5 hsel
    have hnil : fru_data.val = [] := by
      have hl : fru_data.val.length = (fru_len.val.headD 0).val * 8 := fru_data.property
      exact List.length_eq_zero.mp (by omega)
    have hdec : ipmi_fru_product_info_area K fru_data.val (dfd_set_fru_product_info K type).2
        (mem_clear_field K) = some (Ret.invalid_value, mem_clear_field K, none) := by
      rw [hnil]
      rfl
    have hr : area_read K sys product_offset fru_data.val :=
      ⟨info, fru_len, fru_data, h1, h2, h3, h4, h5, rfl⟩
    refine ⟨hnil, hdec, ?_⟩
    rw [get_fru_data_of_read K sys type buf _ hb hr]
    simp only [hsel, ne_eq, not_true_eq_false, if_false, hdec, reduceCtorEq,
      not_false_eq_true, if_true]
  · intro fru_len fru_data h3 hz h4 h5 hsel
    have hnil : fru_data.val = [] := by
      have hl : fru_data.val.length = (fru_len.val.headD 0).val * 8 := fru_data.property
      exact List.length_eq_zero.mp (by omega)
    have hdec : ipmi_fru_board_info_area K fru_data.val (dfd_set_fru_board_info K type).2
        (mem_clear_field K) = some (Ret.invalid_value, mem_clear_field K, none, none) := by
      rw [hnil]
      rfl
    have hr : area_read K sys board_offset fru_data.val :=
      ⟨info, fru_len, fru_data, h1, h2, h3, h4, h5, rfl⟩
    refine ⟨hnil, hdec, ?_⟩
    rw [get_fru_board_data_of_read K sys type buf _ hb hr]
    simp only [hsel, ne_eq, not_true_eq_false, if_false, hdec, reduceCtorEq,
      not_false_eq_true, if_true]

set_option maxRecDepth 100000 in
theorem C20_zero_length_area_witness :
    dfd_get_fru_data example_config (eeprom empty_area_device) dfd_dev_info_type.SN
        [7, 7, 7] = some (Ret.invalid_value, [7, 7, 7]) ∧
    dfd_get_fru_board_data example_config (eeprom empty_area_device) dfd_dev_info_type.SN
        [7, 7, 7] = some (Ret.invalid_value, [7, 7, 7]) :=
  have h := C20_zero_length_area example_config (eeprom empty_area_device)
    dfd_dev_info_type.SN [7, 7, 7]
    ⟨[0x01, 0x00, 0x00, 0x01, 0x01, 0x00, 0x00, 0xFD], rfl⟩ (by decide) (by decide)
    (by decide)
  ⟨(h.1 ⟨[0x00], rfl⟩ ⟨[], rfl⟩ (by decide) rfl rfl (by decide) rfl).2.2,
   (h.2 ⟨[0x00], rfl⟩ ⟨[], rfl⟩ (by decide) rfl rfl (by decide) rfl).2.2⟩

end Fru
